import Mathlib

/-!
# Verification of the m3u8_lib manifest pipeline

Shallow embedding of the manifest-processing core of the `m3u8_lib`
repository (TypeScript), together with proofs and refutations of the
specified properties.

Strings are modelled as `List Char` (`Str`); each embedded function is
translated from the TypeScript source it is named after:

* `optimizeMasterPlaylist`  — `src/routes/streaming.ts`, `M3U8Handler.optimizeMasterPlaylist`
* `processM3U8Content`      — `src/routes/streaming.ts`, `M3U8Handler.processM3U8Content`
* `normalizeAudioUri`       — `src/lib/modules/audio.ts`, `AudioUriUtils.normalizeAudioUri`
* `generateHlsWithAudio`    — `src/lib/modules/audio.ts`, `AudioManager.generateHlsWithAudio`
* `generateHlsWithSubtitles`— `src/lib/modules/subtitles.ts`, `SubtitleManager.generateHlsWithSubtitles`
* `planTargetResolutions`   — `src/lib/core/converter.ts`, rendition planning in `convertToHls`
* `aggregateBatch` / `masterPlaylistContent` — `src/lib/core/converter.ts`, orchestration + master build
* `vttRouteHandler`         — `src/routes/streaming.ts`, route `GET /:videoId/:vttFile`

Scanning loops whose recursion is not structural are written with an explicit
fuel argument (always at least the length of the scanned string, which every
iteration shortens), so that all definitions reduce in the kernel.
-/

namespace M3u8

/-- Strings are lists of characters. -/
abbrev Str := List Char

/-- JS `s.includes(pat)`: `pat` occurs as a contiguous substring of `s`. -/
def containsSub (pat : Str) : Str → Bool
  | [] => pat.isEmpty
  | c :: t => pat.isPrefixOf (c :: t) || containsSub pat t

/-- JS `s.startsWith(pat)`. -/
def startsWith (pat s : Str) : Bool := pat.isPrefixOf s

/-- JS `s.endsWith(pat)`. -/
def endsWith (pat s : Str) : Bool := pat.isSuffixOf s

/-- Generic split on a separator character (JS `s.split(sep)`), accumulating
the current field in reverse. -/
def splitOnCharAux (sep : Char) (cur : Str) : Str → List Str
  | [] => [cur.reverse]
  | c :: t =>
    if c = sep then cur.reverse :: splitOnCharAux sep [] t
    else splitOnCharAux sep (c :: cur) t

/-- JS `s.split(sep)`. -/
def splitOnChar (sep : Char) (s : Str) : List Str := splitOnCharAux sep [] s

/-- JS `content.split('\n')`. -/
def splitLines (s : Str) : List Str := splitOnChar '\n' s

/-- JS `lines.join('\n')`. -/
def joinLines : List Str → Str
  | [] => []
  | [l] => l
  | l :: l2 :: ls => l ++ '\n' :: joinLines (l2 :: ls)

theorem splitOnCharAux_no_sep (sep : Char) (l : Str) (h : sep ∉ l) (cur : Str) :
    splitOnCharAux sep cur l = [cur.reverse ++ l] := by
  induction l generalizing cur with
  | nil => simp [splitOnCharAux]
  | cons c t ih =>
    have hc : c ≠ sep := fun hc => h (hc ▸ List.mem_cons_self c t)
    have ht : sep ∉ t := fun ht => h (List.mem_cons_of_mem c ht)
    simp [splitOnCharAux, hc, ih ht]

theorem splitOnCharAux_append_sep (sep : Char) (l : Str) (h : sep ∉ l) (rest : Str) (cur : Str) :
    splitOnCharAux sep cur (l ++ sep :: rest)
      = (cur.reverse ++ l) :: splitOnCharAux sep [] rest := by
  induction l generalizing cur with
  | nil => simp [splitOnCharAux]
  | cons c t ih =>
    have hc : c ≠ sep := fun hc => h (hc ▸ List.mem_cons_self c t)
    have ht : sep ∉ t := fun ht => h (List.mem_cons_of_mem c ht)
    simp [splitOnCharAux, hc, ih ht]

/-- Splitting after joining recovers the original line list (no line contains a newline). -/
theorem splitLines_joinLines (L : List Str) (hne : L ≠ [])
    (h : ∀ l ∈ L, '\n' ∉ l) : splitLines (joinLines L) = L := by
  induction L with
  | nil => exact absurd rfl hne
  | cons l ls ih =>
    cases ls with
    | nil =>
      simpa [joinLines, splitLines, splitOnChar] using
        splitOnCharAux_no_sep '\n' l (h l (by simp)) []
    | cons l2 ls2 =>
      have h1 : '\n' ∉ l := h l (by simp)
      have hrest : ∀ x ∈ l2 :: ls2, '\n' ∉ x := fun x hx => h x (List.mem_cons_of_mem l hx)
      have := ih (by simp) hrest
      simp only [joinLines, splitLines, splitOnChar] at *
      rw [splitOnCharAux_append_sep '\n' l h1]
      simpa using this

/-- Lines produced by `splitLines` never contain a newline character. -/
theorem no_nl_of_mem_splitLines (s : Str) : ∀ l ∈ splitLines s, '\n' ∉ l := by
  have key : ∀ (s cur : Str), '\n' ∉ cur → ∀ l ∈ splitOnCharAux '\n' cur s, '\n' ∉ l := by
    intro s
    induction s with
    | nil =>
      intro cur hcur l hl
      simp only [splitOnCharAux, List.mem_singleton] at hl
      subst hl
      simpa using hcur
    | cons c t ih =>
      intro cur hcur l hl
      by_cases hc : c = '\n'
      · rw [splitOnCharAux, if_pos hc] at hl
        rcases List.mem_cons.mp hl with rfl | hl2
        · simpa using hcur
        · exact ih [] (by simp) l hl2
      · rw [splitOnCharAux, if_neg hc] at hl
        refine ih (c :: cur) ?_ l hl
        intro hmem
        rcases List.mem_cons.mp hmem with rfl | hmem2
        · exact hc rfl
        · exact hcur hmem2
  intro l hl
  exact key s [] (by simp) l hl

/-! ## The optimizer (`M3U8Handler.optimizeMasterPlaylist`, streaming.ts lines 138–201)

The TypeScript loop walks the split lines with an index `i`, two string
`Set`s (`seenAudioTracks`, `seenStreamInf`), and occasionally consumes the
following line (`i++`).  `optLoop` is the direct recursive form; the two
sets are lists of the key strings. -/

/-- `line.startsWith('#EXT-X-MEDIA:TYPE=AUDIO')`. -/
def isAudioMedia (l : Str) : Bool := startsWith "#EXT-X-MEDIA:TYPE=AUDIO".toList l

/-- `line.startsWith('#EXT-X-MEDIA:TYPE=SUBTITLES')`. -/
def isSubsMedia (l : Str) : Bool := startsWith "#EXT-X-MEDIA:TYPE=SUBTITLES".toList l

/-- `line.startsWith('#EXT-X-STREAM-INF')`. -/
def isStreamInf (l : Str) : Bool := startsWith "#EXT-X-STREAM-INF".toList l

/-- `line.startsWith('#')`. -/
def startsHash (l : Str) : Bool := startsWith "#".toList l

/-- Capture of the first JS regex match of `PAT([^"]+)"` in `s`, where `pat`
is the leading literal (ending in the opening quote): at each position the
literal must match and be followed by a nonempty run of non-quote characters
terminated by a closing quote; otherwise scanning advances one character. -/
def matchCapture (pat : Str) : Str → Option Str
  | [] => none
  | c :: t =>
    if pat.isPrefixOf (c :: t) then
      let rest := (c :: t).drop pat.length
      let cap := rest.takeWhile (fun d => d ≠ '"')
      if cap ≠ [] ∧ rest.drop cap.length ≠ [] then some cap
      else matchCapture pat t
    else matchCapture pat t

/-- The dedup key of an audio `#EXT-X-MEDIA` line:
`language + '_' + uri` when both `LANGUAGE="([^"]+)"` and `URI="([^"]+)"` match. -/
def keyOf (l : Str) : Option Str :=
  match matchCapture "LANGUAGE=\"".toList l, matchCapture "URI=\"".toList l with
  | some lg, some u => some (lg ++ '_' :: u)
  | _, _ => none

/-- The dedup key of a `#EXT-X-STREAM-INF` line: `line + '_' + nextLine`. -/
def pairKey (line next : Str) : Str := line ++ '_' :: next

/-- The optimizer loop over the split lines (streaming.ts lines 146–191). -/
def optLoop (sa ss : List Str) : List Str → List Str
  | [] => []
  | [line] =>
    if isAudioMedia line then
      match keyOf line with
      | some k => if k ∈ sa then [] else [line]
      | none => [line]
    else if isStreamInf line then
      if pairKey line [] ∈ ss then [] else [line]
    else [line]
  | line :: next :: rest =>
    if isAudioMedia line then
      match keyOf line with
      | some k =>
        if k ∈ sa then optLoop sa ss (next :: rest)
        else line :: optLoop (k :: sa) ss (next :: rest)
      | none => line :: optLoop sa ss (next :: rest)
    else if isStreamInf line then
      if pairKey line next ∈ ss then
        if next ≠ [] ∧ startsHash next = false then optLoop sa ss rest
        else optLoop sa ss (next :: rest)
      else
        if next ≠ [] ∧ startsHash next = false then
          line :: next :: optLoop sa (pairKey line next :: ss) rest
        else line :: optLoop sa (pairKey line next :: ss) (next :: rest)
    else line :: optLoop sa ss (next :: rest)

/-- `M3U8Handler.optimizeMasterPlaylist` at the line level. -/
def optimizeLines (lines : List Str) : List Str := optLoop [] [] lines

/-- `M3U8Handler.optimizeMasterPlaylist` (split, dedup loop, join). -/
def optimizeMasterPlaylist (content : Str) : Str :=
  joinLines (optimizeLines (splitLines content))

/-- Well-formed variant structure: every `#EXT-X-STREAM-INF` line is
immediately followed by a nonempty line that does not start with `#`
(its URI line, which the optimizer then consumes together with it). -/
def wfStream : List Str → Bool
  | [] => true
  | [l] => !isStreamInf l
  | l :: next :: rest =>
    if isStreamInf l then (next ≠ [] && !startsHash next) && wfStream rest
    else wfStream (next :: rest)

/-- The audio dedup keys of the lines, in order (only `TYPE=AUDIO` media
lines carrying both captures contribute). -/
def audioKeys (L : List Str) : List Str :=
  L.filterMap fun l => if isAudioMedia l then keyOf l else none

/-- The stream-pair dedup keys of a well-formed line list, in order. -/
def pairKeys : List Str → List Str
  | [] => []
  | [l] => if isStreamInf l then [pairKey l []] else []
  | l :: next :: rest =>
    if isStreamInf l then pairKey l next :: pairKeys rest
    else pairKeys (next :: rest)

/-- First-occurrence deduplication with respect to an already-seen set. -/
def ddWith (seen : List Str) : List Str → List Str
  | [] => []
  | k :: ks => if k ∈ seen then ddWith seen ks else k :: ddWith (k :: seen) ks

/-- The lines whose audio dedup key is `k`. -/
def audioKeyLines (k : Str) (L : List Str) : List Str :=
  L.filter fun l => isAudioMedia l && (keyOf l == some k)

/-- The audio-media dedup fold: the part of the optimizer loop that
processes a block of `TYPE=AUDIO` media lines, returning the surviving
lines and the extended seen-set. -/
def mediaFold (sa : List Str) : List Str → List Str × List Str
  | [] => ([], sa)
  | l :: ls =>
    match keyOf l with
    | some k =>
      if k ∈ sa then mediaFold sa ls
      else
        let r := mediaFold (k :: sa) ls
        (l :: r.1, r.2)
    | none =>
      let r := mediaFold sa ls
      (l :: r.1, r.2)

/-! ## The audio URI normalizer (`AudioUriUtils.normalizeAudioUri`, audio.ts lines 25–43) -/

/-- The literal `"audio/audio/"`. -/
def audioAudioPat : Str := "audio/audio/".toList

/-- The literal `"audio/"`. -/
def audioPat : Str := "audio/".toList

/-- One JS global replace `s.replace(/audio\/audio\//g, 'audio/')` (fuelled:
scanning resumes after the replacement text is emitted, and every step
consumes at least one input character). -/
def replAF : Nat → Str → Str
  | 0, s => s
  | _ + 1, [] => []
  | fuel + 1, c :: t =>
    if audioAudioPat.isPrefixOf (c :: t) then
      audioPat ++ replAF fuel ((c :: t).drop audioAudioPat.length)
    else c :: replAF fuel t

/-- One JS global replace `s.replace(/audio\/audio\//g, 'audio/')`. -/
def replA (s : Str) : Str := replAF s.length s

/-- The `while (normalized.includes('audio/audio/'))` loop of
`normalizeAudioUri` (fuelled: every iteration strictly shortens the string). -/
def stripAF : Nat → Str → Str
  | 0, s => s
  | fuel + 1, s => if containsSub audioAudioPat s then stripAF fuel (replA s) else s

/-- The `while (normalized.includes('audio/audio/'))` loop of `normalizeAudioUri`. -/
def stripA (s : Str) : Str := stripAF s.length s

/-- JS `normalized.replace(/\/+/g, '/')` (fuelled): collapse runs of slashes. -/
def collapseF : Nat → Str → Str
  | 0, s => s
  | _ + 1, [] => []
  | fuel + 1, c :: t =>
    if c = '/' then c :: collapseF fuel (t.dropWhile (fun d => d = '/'))
    else c :: collapseF fuel t

/-- JS `normalized.replace(/\/+/g, '/')`: collapse runs of slashes. -/
def collapseSlashes (s : Str) : Str := collapseF s.length s

/-- No two consecutive slashes anywhere in the string. -/
def noDoubleSlash : Str → Bool
  | [] => true
  | c :: t => !(c = '/' && t.headD ' ' = '/') && noDoubleSlash t

/-- `AudioUriUtils.normalizeAudioUri` (audio.ts lines 25–43). -/
def normalizeAudioUri (uri : Str) : Str :=
  if uri = [] then []
  else
    let n1 := stripA uri
    let n2 := if startsWith audioPat n1 then n1 else audioPat ++ n1
    collapseSlashes n2

/-- `AudioUriUtils.generateAudioUri` (audio.ts lines 58–65): the anchored
global replace `/^audio\//g` strips exactly one leading `audio/`. -/
def generateAudioUri (trackId : Str) : Str :=
  if trackId = [] then []
  else
    let cleanId := if audioPat.isPrefixOf trackId then trackId.drop audioPat.length else trackId
    audioPat ++ cleanId ++ ".m3u8".toList

/-! ## Attaching media declarations

`AudioManager.generateHlsWithAudio` (audio.ts lines 558–604) and
`SubtitleManager.generateHlsWithSubtitles` (subtitles.ts lines 280–328)
splice `#EXT-X-MEDIA` lines after the first `#EXT-X-VERSION` line and then
walk every line appending a group reference to `#EXT-X-STREAM-INF` lines
that lack the `'AUDIO'` / `'SUBTITLES'` substring.  When no version line
exists the content is left untouched. -/

/-- An audio track as consumed by `generateHlsWithAudio` (`AudioTrack` in types). -/
structure AudioTrack where
  id : Str
  language : Str
  label : Str
  isDefault : Bool
  uri : Str
deriving DecidableEq, Repr

/-- A subtitle track as consumed by `generateHlsWithSubtitles`. -/
structure SubtitleTrack where
  language : Str
  label : Str
  isDefault : Bool
deriving DecidableEq, Repr

/-- `track.uri || AudioUriUtils.generateAudioUri(track.id)`, then
`AudioUriUtils.normalizeAudioUri` (audio.ts lines 570–571). -/
def validatedUri (t : AudioTrack) : Str :=
  normalizeAudioUri (if t.uri = [] then generateAudioUri t.id else t.uri)

/-- The `#EXT-X-MEDIA` line pushed for one audio track (audio.ts lines 573–577). -/
def audioMediaLine (t : AudioTrack) : Str :=
  "#EXT-X-MEDIA:TYPE=AUDIO,GROUP-ID=\"audio\",NAME=\"".toList ++ t.label ++
  "\",LANGUAGE=\"".toList ++ t.language ++ "\",".toList ++
  (if t.isDefault then "DEFAULT=YES,".toList else []) ++
  "URI=\"".toList ++ validatedUri t ++ "\"".toList

/-- The `#EXT-X-MEDIA` line pushed for one subtitle track
(subtitles.ts lines 297–301); its URI is the value returned by
`generateSubtitlePlaylist`, namely `subtitles/{language}.m3u8`. -/
def subsMediaLine (t : SubtitleTrack) : Str :=
  "#EXT-X-MEDIA:TYPE=SUBTITLES,GROUP-ID=\"subs\",NAME=\"".toList ++ t.label ++
  "\",LANGUAGE=\"".toList ++ t.language ++ "\",".toList ++
  (if t.isDefault then "DEFAULT=YES,".toList else []) ++
  "URI=\"subtitles/".toList ++ t.language ++ ".m3u8\"".toList

/-- `line.startsWith('#EXT-X-VERSION')`. -/
def isVersionLine (l : Str) : Bool := startsWith "#EXT-X-VERSION".toList l

/-- `lines.findIndex(line => line.startsWith('#EXT-X-VERSION'))` together with
the split at that index: `some (before, versionLine, after)`, or `none` when
the index is `-1`. -/
def splitAtVersion : List Str → Option (List Str × Str × List Str)
  | [] => none
  | l :: t =>
    if isVersionLine l then some ([], l, t)
    else match splitAtVersion t with
      | some (p, v, r) => some (l :: p, v, r)
      | none => none

/-- The stream-marking step of `generateHlsWithAudio` (audio.ts lines 588–594):
append `,AUDIO="audio"` to `#EXT-X-STREAM-INF` lines lacking the substring `AUDIO`. -/
def markAudioLine (l : Str) : Str :=
  if isStreamInf l ∧ containsSub "AUDIO".toList l = false then l ++ ",AUDIO=\"audio\"".toList
  else l

/-- The stream-marking step of `generateHlsWithSubtitles` (subtitles.ts lines 312–318). -/
def markSubsLine (l : Str) : Str :=
  if isStreamInf l ∧ containsSub "SUBTITLES".toList l = false then l ++ ",SUBTITLES=\"subs\"".toList
  else l

/-- `generateHlsWithAudio` at the line level: splice the audio lines after the
first version line, then mark every line. -/
def attachAudioLines (tracks : List AudioTrack) (lines : List Str) : List Str :=
  match splitAtVersion lines with
  | none => lines
  | some (pre, v, post) =>
    ((pre ++ v :: (tracks.map audioMediaLine ++ post)).map markAudioLine)

/-- `generateHlsWithSubtitles` at the line level. -/
def attachSubsLines (tracks : List SubtitleTrack) (lines : List Str) : List Str :=
  match splitAtVersion lines with
  | none => lines
  | some (pre, v, post) =>
    ((pre ++ v :: (tracks.map subsMediaLine ++ post)).map markSubsLine)

/-- `AudioManager.generateHlsWithAudio` on the manifest text (the version of
the master playlist content the function writes back; unchanged when no
version line is found). -/
def generateHlsWithAudio (tracks : List AudioTrack) (content : Str) : Str :=
  match splitAtVersion (splitLines content) with
  | none => content
  | some _ => joinLines (attachAudioLines tracks (splitLines content))

/-- `SubtitleManager.generateHlsWithSubtitles` on the manifest text. -/
def generateHlsWithSubtitles (tracks : List SubtitleTrack) (content : Str) : Str :=
  match splitAtVersion (splitLines content) with
  | none => content
  | some _ => joinLines (attachSubsLines tracks (splitLines content))

/-! ## Rendition planning (`convertToHls`, converter.ts lines 205–225) -/

/-- One configured rendition (`VideoResolution`); the TS `isOriginal` field is
optional and absent (`undefined`) entries are modelled as `false`. -/
structure VideoResolution where
  name : Str
  size : Str
  bitrate : Str
  isOriginal : Bool := false
deriving DecidableEq, Repr

/-- Probed source metadata (`VideoMetadata`). -/
structure VideoMetadata where
  width : Nat
  height : Nat
  bitrate : Str
deriving DecidableEq, Repr

/-- Decimal rendering of a natural number, fuelled on the number of digits. -/
def toDecF : Nat → Nat → Str
  | 0, _ => []
  | fuel + 1, n =>
    if n < 10 then [Nat.digitChar n]
    else toDecF fuel (n / 10) ++ [Nat.digitChar (n % 10)]

/-- Decimal rendering of a natural number (JS template `${n}`). -/
def toDec (n : Nat) : Str := toDecF (n + 1) n

/-- JS `parseInt` on names of the shape `"<digits>p"`: the leading decimal
digits (0 when there are none; real `parseInt` yields NaN there, a case the
sort comparator never meets for well-formed rendition names). -/
def leadingNat (s : Str) : Nat :=
  (s.takeWhile Char.isDigit).foldl (fun a c => a * 10 + (c.toNat - '0'.toNat)) 0

/-- `targetResolutions.find(r => r.size === …).isOriginal = true`: mark the
first entry with a matching frame size. -/
def markFirstOriginal (size : Str) : List VideoResolution → List VideoResolution
  | [] => []
  | r :: t =>
    if r.size = size then { r with isOriginal := true } :: t
    else r :: markFirstOriginal size t

/-- The rendition-planning step of `convertToHls` (converter.ts lines 205–225).
The TS array sort is stable (ES2019), so it is modelled by the stable
`List.insertionSort` with the comparator key `parseInt(name)`. -/
def planTargetResolutions (metadata : VideoMetadata) (resolutions : List VideoResolution) :
    List VideoResolution :=
  let originalResName := toDec metadata.height ++ ['p']
  let sizeStr := toDec metadata.width ++ 'x' :: toDec metadata.height
  if resolutions.any (fun r => r.name = originalResName) then resolutions
  else if metadata.width ≠ 0 ∧ metadata.height ≠ 0 then
    if resolutions.any (fun r => r.size = sizeStr) then markFirstOriginal sizeStr resolutions
    else
      List.insertionSort (fun a b => leadingNat a.name ≤ leadingNat b.name)
        (resolutions ++ [{ name := originalResName, size := sizeStr,
                           bitrate := metadata.bitrate, isOriginal := true }])
  else resolutions

/-! ## Master playlist assembly and batch aggregation (converter.ts lines 229–277) -/

/-- A successful per-rendition outcome (`ProcessedResolution`). -/
structure ProcessedResolution where
  name : Str
  size : Str
  bitrate : Str
  bandwidth : Nat
  playlistRelativePath : Str
deriving DecidableEq, Repr

/-- One `#EXT-X-STREAM-INF` line of the master playlist (converter.ts line 271). -/
def streamInfLine (r : ProcessedResolution) : Str :=
  "#EXT-X-STREAM-INF:BANDWIDTH=".toList ++ toDec r.bandwidth ++
  ",RESOLUTION=".toList ++ r.size ++ ",CODECS=\"avc1.42E01E,mp4a.40.2\"".toList

/-- The comparator order of `(a, b) => a.bandwidth - b.bandwidth`. -/
def bwLE (a b : ProcessedResolution) : Prop := a.bandwidth ≤ b.bandwidth

instance : DecidableRel bwLE := fun a b => Nat.decLe a.bandwidth b.bandwidth

instance : IsTotal ProcessedResolution bwLE := ⟨fun a b => Nat.le_total a.bandwidth b.bandwidth⟩

instance : IsTrans ProcessedResolution bwLE := ⟨fun _ _ _ => Nat.le_trans⟩

/-- `successfulResults.sort((a, b) => a.bandwidth - b.bandwidth)`; the TS sort
is stable, modelled by the stable `List.insertionSort`. -/
def sortByBandwidth (rs : List ProcessedResolution) : List ProcessedResolution :=
  List.insertionSort bwLE rs

/-- The master playlist text built at converter.ts lines 263–273. -/
def masterPlaylistContent (proxyBaseUrl : Str) (rs : List ProcessedResolution) : Str :=
  "#EXTM3U\n#EXT-X-VERSION:3\n".toList ++
  (sortByBandwidth rs).foldr
    (fun r acc =>
      streamInfLine r ++ '\n' :: (proxyBaseUrl ++ r.playlistRelativePath) ++ '\n' :: acc) []

/-- The terminal errors thrown by the aggregation step (converter.ts lines 249–254). -/
inductive ConvError where
  /-- `La conversión HLS falló para N resolución(es).` -/
  | batchFailed (count : Nat)
  /-- `La conversión HLS no resultó en resoluciones exitosas.` -/
  | noSuccess
deriving DecidableEq, Repr

/-- The `successfulResults` collected from the settled outcomes
(converter.ts lines 240–247). -/
def batchSuccesses (results : List (Except Str ProcessedResolution)) : List ProcessedResolution :=
  results.filterMap fun r => match r with | .ok v => some v | .error _ => none

/-- The `errors` collected from the settled outcomes (converter.ts lines 240–247). -/
def batchFailures (results : List (Except Str ProcessedResolution)) : List Str :=
  results.filterMap fun r => match r with | .ok _ => none | .error e => some e

/-- Aggregation of the settled per-rendition outcomes (converter.ts lines
235–277): `Promise.allSettled` settles every job, fulfilled and rejected
outcomes are partitioned, a non-empty error set aborts (no master playlist
text is produced), otherwise the master playlist content is returned (and
written). -/
def aggregateBatch (proxyBaseUrl : Str) (results : List (Except Str ProcessedResolution)) :
    Except ConvError Str :=
  if (batchFailures results).length ≠ 0 then .error (.batchFailed (batchFailures results).length)
  else if (batchSuccesses results).length = 0 then .error .noSuccess
  else .ok (masterPlaylistContent proxyBaseUrl (batchSuccesses results))

/-- The bandwidth declared on a `#EXT-X-STREAM-INF` line (the decimal
number following `BANDWIDTH=`), if the line is a variant declaration. -/
def extractBandwidth (l : Str) : Option Nat :=
  if startsWith "#EXT-X-STREAM-INF:BANDWIDTH=".toList l then
    some (leadingNat (l.drop 28))
  else none

/-! ## The request-time rewrite pass (`M3U8Handler.processM3U8Content`,
streaming.ts lines 77–133) -/

/-- The literal `"http://localhost:3000/example-output/"`. -/
def localhostPat : Str := "http://localhost:3000/example-output/".toList

/-- JS `\s` for the characters appearing in manifests (space, tab, CR, LF,
vertical tab, form feed). -/
def jsSpace (c : Char) : Bool :=
  c = ' ' || c = '\t' || c = '\n' || c = '\r' || c = '\x0b' || c = '\x0c'

/-- Global replace `line.replace(/http:\/\/localhost:3000\/example-output\/([^\s"]+)/g,
baseUrl + '/$1')` (streaming.ts line 88), fuelled. -/
def replaceLocalhostF (baseUrl : Str) : Nat → Str → Str
  | 0, s => s
  | _ + 1, [] => []
  | fuel + 1, c :: t =>
    if localhostPat.isPrefixOf (c :: t) then
      let rest := (c :: t).drop localhostPat.length
      let cap := rest.takeWhile (fun d => ¬ (jsSpace d || d = '"'))
      if cap ≠ [] then
        baseUrl ++ '/' :: cap ++ replaceLocalhostF baseUrl fuel (rest.drop cap.length)
      else c :: replaceLocalhostF baseUrl fuel t
    else c :: replaceLocalhostF baseUrl fuel t

/-- Global replace of absolute build-origin URLs (streaming.ts line 88). -/
def replaceLocalhost (baseUrl : Str) (s : Str) : Str := replaceLocalhostF baseUrl s.length s

/-- The characters after the last `/` of a path (`path.basename`, no extension). -/
def afterLastSlash (s : Str) : Str := (s.reverse.takeWhile (fun c => c ≠ '/')).reverse

/-- `path.basename(uri, '.vtt')`: the basename, with a trailing `.vtt`
stripped unless the basename is exactly `.vtt`. -/
def basenameVtt (s : Str) : Str :=
  let b := afterLastSlash s
  if b ≠ ".vtt".toList ∧ endsWith ".vtt".toList b = true then b.take (b.length - 4) else b

/-- The replacement callback of the `URI="([^"]+)"` rewrite
(streaming.ts lines 93–111), applied to the captured `uri`. -/
def uriReplacement (baseUrl : Str) (uri : Str) : Str :=
  if ¬ startsWith "http".toList uri = true ∧ ¬ startsWith "/".toList uri = true then
    if endsWith ".vtt".toList uri = true then
      let filename := basenameVtt uri
      let language := if startsWith "sub_".toList filename then filename.drop 4 else filename
      if language ≠ [] then
        "URI=\"".toList ++ baseUrl ++ "/subtitles/".toList ++ language ++ ".m3u8\"".toList
      else "URI=\"".toList ++ baseUrl ++ "/subtitles/".toList ++ uri ++ "\"".toList
    else
      -- the audio `.m3u8` branch and the default branch build the same text
      "URI=\"".toList ++ baseUrl ++ '/' :: uri ++ "\"".toList
  else "URI=\"".toList ++ uri ++ "\"".toList

/-- The literal `"URI=\""`. -/
def uriAttrPat : Str := "URI=\"".toList

/-- Global replace `line.replace(/URI="([^"]+)"/g, (match, uri) => …)`
(streaming.ts line 93), fuelled. -/
def replaceURIsF (baseUrl : Str) : Nat → Str → Str
  | 0, s => s
  | _ + 1, [] => []
  | fuel + 1, c :: t =>
    if uriAttrPat.isPrefixOf (c :: t) then
      let rest := (c :: t).drop uriAttrPat.length
      let cap := rest.takeWhile (fun d => d ≠ '"')
      if cap ≠ [] ∧ rest.drop cap.length ≠ [] then
        uriReplacement baseUrl cap ++ replaceURIsF baseUrl fuel (rest.drop (cap.length + 1))
      else c :: replaceURIsF baseUrl fuel t
    else c :: replaceURIsF baseUrl fuel t

/-- Global replace of `URI="…"` attributes (streaming.ts lines 93–111). -/
def replaceURIs (baseUrl : Str) (s : Str) : Str := replaceURIsF baseUrl s.length s

/-- `line.match(/^[^#].*\.m3u8$/)`: nonempty, first character not `#`, and at
least one character before a final `.m3u8`. -/
def isRelPlaylistLine (l : Str) : Bool :=
  match l with
  | [] => false
  | c :: t => c ≠ '#' && endsWith ".m3u8".toList t

/-- One iteration of the rewrite loop of `processM3U8Content`
(streaming.ts lines 83–129).  Each of the three branch results is computed
from the original `line`, exactly as in the source. -/
def processM3U8Line (baseUrl videoId line : Str) : Str :=
  let p0 := line
  let p1 := if containsSub localhostPat line then replaceLocalhost baseUrl line else p0
  let p2 :=
    if containsSub uriAttrPat line ∧ ¬ containsSub "http".toList line = true ∧
        ¬ containsSub baseUrl line = true then
      replaceURIs baseUrl line
    else p1
  if isRelPlaylistLine line ∧ ¬ startsWith "http".toList line = true ∧
      ¬ startsWith "/".toList line = true then
    if videoId = "demo".toList ∧ startsWith "real-world-demo/".toList line then
      match splitOnChar '/' line with
      | [p, q, r] => if p = "real-world-demo".toList then baseUrl ++ '/' :: q ++ '/' :: r else p2
      | _ => p2
    else baseUrl ++ '/' :: line
  else p2

/-- `M3U8Handler.processM3U8Content` (streaming.ts lines 77–133). -/
def processM3U8Content (content baseUrl videoId : Str) : Str :=
  joinLines ((splitLines content).map (processM3U8Line baseUrl videoId))

/-! ## The direct-VTT route (`streaming.get('/:videoId/:vttFile')`,
streaming.ts lines 467–497) -/

/-- An HTTP text response: body and status. -/
structure RouteResponse where
  body : Str
  status : Nat
deriving DecidableEq, Repr

/-- The handler of `GET /:videoId/:vttFile`, parameterized by the filesystem
(existence oracle and file reader, external collaborators). -/
def vttRouteHandler (fileExists : Str → Bool) (readFile : Str → Str)
    (_videoId vttFile : Str) : RouteResponse :=
  if ¬ endsWith ".vtt".toList vttFile = true ∨ ¬ endsWith ".m3u8".toList vttFile = true then
    { body := "Archivo no encontrado".toList, status := 404 }
  else if ¬ fileExists vttFile = true then
    { body := "Archivo VTT no encontrado".toList, status := 404 }
  else
    { body := readFile vttFile, status := 200 }

/-! ## Concrete scenario data used by counterexamples and witnesses -/

/-- The configured rendition of the C1 scenario. -/
def c1Configured : VideoResolution :=
  { name := "480p".toList, size := "854x480".toList, bitrate := "1200k".toList }

/-- The source metadata of the C1 scenario. -/
def c1Metadata : VideoMetadata := { width := 854, height := 480, bitrate := "1100k".toList }

/-- A sample 360p success outcome. -/
def sample360 : ProcessedResolution :=
  { name := "360p".toList, size := "640x360".toList, bitrate := "500k".toList,
    bandwidth := 500000, playlistRelativePath := "360p/playlist.m3u8".toList }

/-- A sample 720p success outcome. -/
def sample720 : ProcessedResolution :=
  { name := "720p".toList, size := "1280x720".toList, bitrate := "1500k".toList,
    bandwidth := 1500000, playlistRelativePath := "720p/playlist.m3u8".toList }

/-- A duplicated subtitle media declaration (same `(language, uri)` key). -/
def c2Subs : Str := "#EXT-X-MEDIA:TYPE=SUBTITLES,LANGUAGE=\"es\",URI=\"s.m3u8\"".toList

/-- A manifest consisting of the same subtitle declaration twice. -/
def c2Content : Str := joinLines [c2Subs, c2Subs]

/-- An audio media declaration line. -/
def c5Media : Str := "#EXT-X-MEDIA:TYPE=AUDIO,LANGUAGE=\"en\",URI=\"a.m3u8\"".toList

/-- A variant declaration line. -/
def c5Stream : Str := "#EXT-X-STREAM-INF:BANDWIDTH=1".toList

/-- A variant URI line. -/
def c5Uri : Str := "v.m3u8".toList

/-- A manifest on which the optimizer is not idempotent: the duplicate media
line sits between the first variant line and its URI line. -/
def c5Content : Str := joinLines [c5Media, c5Stream, c5Media, c5Uri, c5Stream, c5Uri]

/-- A well-formed manifest (every variant line is followed by its URI line). -/
def c5WfContent : Str := joinLines [c5Media, c5Stream, c5Uri, c5Stream, c5Uri]

/-- A version tag line. -/
def c8V : Str := "#EXT-X-VERSION:3".toList

/-- A variant line containing the substring `AUDIO` without any
`AUDIO="…"` group reference. -/
def c8S : Str := "#EXT-X-STREAM-INF:BANDWIDTH=1000,VIDEO=\"AUDIO2\"".toList

/-- A plain comment line before the version tag. -/
def c8Pre : Str := "#EXTM3U".toList

/-- A concrete audio track. -/
def c8Track : AudioTrack :=
  { id := "en".toList, language := "en".toList, label := "English".toList,
    isDefault := true, uri := "audio/en.m3u8".toList }

/-- A concrete subtitle track. -/
def c3Sub : SubtitleTrack :=
  { language := "es".toList, label := "Es".toList, isDefault := false }

/-- A one-line master manifest holding only the version tag. -/
def c3Content : Str := joinLines [c8V]

/-! ## Generic lemmas about the string primitives -/

theorem containsSub_infix_iff (pat s : Str) : containsSub pat s = true ↔ pat <:+: s := by
  induction s with
  | nil =>
    simp only [containsSub, List.isEmpty_iff]
    constructor
    · rintro rfl
      exact List.infix_refl []
    · intro h
      exact List.eq_nil_of_infix_nil h
  | cons c t ih =>
    simp only [containsSub, Bool.or_eq_true, ih, List.isPrefixOf_iff_prefix, List.infix_cons_iff]

theorem containsSub_of_infix {pat s₁ s₂ : Str} (h : s₁ <:+: s₂)
    (hc : containsSub pat s₁ = true) : containsSub pat s₂ = true :=
  (containsSub_infix_iff pat s₂).mpr (((containsSub_infix_iff pat s₁).mp hc).trans h)

theorem containsSub_append_left {pat s : Str} (hc : containsSub pat s = true) (r : Str) :
    containsSub pat (s ++ r) = true :=
  containsSub_of_infix (List.prefix_append s r).isInfix hc

theorem containsSub_refl (pat : Str) : containsSub pat pat = true :=
  (containsSub_infix_iff pat pat).mpr (List.infix_refl pat)

theorem endsWith_getLast? {pat s : Str} (h : endsWith pat s = true) (hne : pat ≠ []) :
    s.getLast? = pat.getLast? := by
  rcases List.isSuffixOf_iff_suffix.mp h with ⟨t, rfl⟩
  exact List.getLast?_append_of_ne_nil t hne

/-! ## C10 — the direct-VTT route guard is contradictory -/

/-- **C10.** The guard of `GET /:videoId/:vttFile` requires the file name to
end in both `.vtt` and `.m3u8` to proceed; no string does, so every request
gets the guard's 404 (`Archivo no encontrado`) and the file-serving branch is
unreachable. -/
theorem vttRoute_always_404 (fileExists : Str → Bool) (readFile : Str → Str)
    (videoId vttFile : Str) :
    vttRouteHandler fileExists readFile videoId vttFile
      = { body := "Archivo no encontrado".toList, status := 404 } := by
  unfold vttRouteHandler
  rw [if_pos]
  by_cases h1 : endsWith ".vtt".toList vttFile = true
  · by_cases h2 : endsWith ".m3u8".toList vttFile = true
    · exfalso
      have e1 := endsWith_getLast? h1 (by decide)
      have e2 := endsWith_getLast? h2 (by decide)
      rw [e1] at e2
      simp [List.getLast?] at e2
    · exact Or.inr h2
  · exact Or.inl h1

/-! ## C1 — rendition planning: the name check masks the frameSize check -/

/-- **C1, counterexample.** On exactly the claimed input (one configured
rendition named `480p` of size `854x480`, source `854x480`), the planner
returns that single rendition **unmarked**: `originalAlreadyDefined` is
decided by the *name* `"480p"` alone and short-circuits the whole block, so
`isOriginal` is never set, contradicting the claim that the existing entry is
marked `isOriginal = true`. -/
theorem planTargetResolutions_name_match_not_marked :
    planTargetResolutions c1Metadata [c1Configured] = [c1Configured] ∧
    c1Configured.isOriginal = false := by
  constructor
  · decide
  · decide

theorem markFirstOriginal_spec (size : Str) (rs : List VideoResolution)
    (h : ∃ r ∈ rs, r.size = size) :
    ∃ pre r post,
      rs = pre ++ r :: post ∧ (∀ x ∈ pre, x.size ≠ size) ∧ r.size = size ∧
      markFirstOriginal size rs = pre ++ { r with isOriginal := true } :: post := by
  induction rs with
  | nil => simp at h
  | cons a t ih =>
    by_cases ha : a.size = size
    · exact ⟨[], a, t, by simp, by simp, ha, by simp [markFirstOriginal, ha]⟩
    · have ht : ∃ r ∈ t, r.size = size := by
        rcases h with ⟨r, hr, hrs⟩
        rcases List.mem_cons.mp hr with rfl | hr'
        · exact absurd hrs ha
        · exact ⟨r, hr', hrs⟩
      rcases ih ht with ⟨pre, r, post, hsplit, hpre, hrs, heq⟩
      exact ⟨a :: pre, r, post, by simp [hsplit], by
          intro x hx
          rcases List.mem_cons.mp hx with rfl | hx'
          · exact ha
          · exact hpre x hx', hrs, by simp [markFirstOriginal, ha, heq]⟩

/-- **C1, amended.** When a configured entry is already *named*
`"{height}p"`, planning returns the configured list entirely unchanged (in
particular nothing is marked `isOriginal`); only when no entry has that name
(and the probed dimensions are nonzero) does the frameSize check run, in
which case an entry with the source's frameSize suppresses the synthetic
rendition and the *first* such entry — and it alone — is marked
`isOriginal = true`. -/
theorem planTargetResolutions_amended (metadata : VideoMetadata)
    (resolutions : List VideoResolution) :
    ((∃ r ∈ resolutions, r.name = toDec metadata.height ++ ['p']) →
      planTargetResolutions metadata resolutions = resolutions) ∧
    ((¬ ∃ r ∈ resolutions, r.name = toDec metadata.height ++ ['p']) →
      metadata.width ≠ 0 → metadata.height ≠ 0 →
      (∃ r ∈ resolutions, r.size = toDec metadata.width ++ 'x' :: toDec metadata.height) →
      ∃ pre r post,
        resolutions = pre ++ r :: post ∧
        (∀ x ∈ pre, x.size ≠ toDec metadata.width ++ 'x' :: toDec metadata.height) ∧
        r.size = toDec metadata.width ++ 'x' :: toDec metadata.height ∧
        planTargetResolutions metadata resolutions
          = pre ++ { r with isOriginal := true } :: post) := by
  constructor
  · intro h
    have hany : resolutions.any (fun r => r.name = toDec metadata.height ++ ['p']) = true := by
      rw [List.any_eq_true]
      rcases h with ⟨r, hr, hn⟩
      exact ⟨r, hr, by simpa using hn⟩
    simp [planTargetResolutions, hany]
  · intro h hw hh hsize
    have hany : resolutions.any (fun r => r.name = toDec metadata.height ++ ['p']) = false := by
      rw [List.any_eq_false]
      intro r hr
      simpa using fun hn => h ⟨r, hr, hn⟩
    have hany2 : resolutions.any
        (fun r => r.size = toDec metadata.width ++ 'x' :: toDec metadata.height) = true := by
      rw [List.any_eq_true]
      rcases hsize with ⟨r, hr, hs⟩
      exact ⟨r, hr, by simpa using hs⟩
    rcases markFirstOriginal_spec _ _ hsize with ⟨pre, r, post, hsplit, hpre, hrs, heq⟩
    refine ⟨pre, r, post, hsplit, hpre, hrs, ?_⟩
    simp [planTargetResolutions, hany, hany2, hw, hh, heq]

/-- **C1, witness.** The amended theorem applied to a configured list named
`"sd"` (no `480p`-named entry) with the source's frameSize: the entry is
marked and nothing is appended. -/
theorem planTargetResolutions_amended_witness :
    ∃ pre r post,
      [({ name := "sd".toList, size := "854x480".toList,
          bitrate := "1200k".toList } : VideoResolution)] = pre ++ r :: post ∧
      (∀ x ∈ pre, x.size ≠ toDec c1Metadata.width ++ 'x' :: toDec c1Metadata.height) ∧
      r.size = toDec c1Metadata.width ++ 'x' :: toDec c1Metadata.height ∧
      planTargetResolutions c1Metadata
          [{ name := "sd".toList, size := "854x480".toList, bitrate := "1200k".toList }]
        = pre ++ { r with isOriginal := true } :: post :=
  (planTargetResolutions_amended c1Metadata
      [{ name := "sd".toList, size := "854x480".toList, bitrate := "1200k".toList }]).2
    (by decide) (by decide) (by decide) (by decide)

/-! ## C7 — settle-all orchestration and all-or-nothing reporting -/

/-- **C7.** The orchestration settles every job: every fulfilled outcome is
collected even when a sibling rejects.  (i) Whenever the failure set is
nonempty the batch aggregation reports `BatchConversionFailed` with the
failure count and never yields master-playlist content.  (ii) In the 3-job
scenario where job #2 fails, exactly 2 successes and 1 failure are
collected and the batch errors with count 1. -/
theorem aggregateBatch_settle_all :
    (∀ (proxy : Str) (results : List (Except Str ProcessedResolution)),
        batchFailures results ≠ [] →
        aggregateBatch proxy results = .error (.batchFailed (batchFailures results).length) ∧
        ∀ s, aggregateBatch proxy results ≠ .ok s) ∧
    (∀ (proxy e : Str) (a b : ProcessedResolution),
        batchSuccesses [.ok a, .error e, .ok b] = [a, b] ∧
        batchFailures [.ok a, .error e, .ok b] = [e] ∧
        aggregateBatch proxy [.ok a, .error e, .ok b] = .error (.batchFailed 1)) := by
  constructor
  · intro proxy results h
    have hlen : (batchFailures results).length ≠ 0 := by
      simpa [List.length_eq_zero] using h
    constructor
    · simp [aggregateBatch, hlen]
    · intro s
      simp [aggregateBatch, hlen]
  · intro proxy e a b
    refine ⟨?_, ?_, ?_⟩
    · simp [batchSuccesses, List.filterMap]
    · simp [batchFailures, List.filterMap]
    · simp [aggregateBatch, batchFailures, batchSuccesses, List.filterMap]

/-- **C7, witness.** The settle-all theorem applied to a concrete 3-job batch. -/
theorem aggregateBatch_settle_all_witness :
    batchFailures [Except.ok sample360, Except.error "boom".toList, Except.ok sample720] ≠ [] ∧
    batchSuccesses [Except.ok sample360, Except.error "boom".toList, Except.ok sample720]
      = [sample360, sample720] ∧
    aggregateBatch [] [Except.ok sample360, Except.error "boom".toList, Except.ok sample720]
      = .error (.batchFailed 1) :=
  ⟨by decide,
    (aggregateBatch_settle_all.2 [] "boom".toList sample360 sample720).1,
    (aggregateBatch_settle_all.2 [] "boom".toList sample360 sample720).2.2⟩

/-! ## C4 — master playlist variant lines appear in non-decreasing bandwidth order -/

theorem toDecF_irrel : ∀ (n f₁ f₂ : Nat), n < f₁ → n < f₂ → toDecF f₁ n = toDecF f₂ n := by
  intro n
  induction n using Nat.strongRecOn with
  | _ n ih =>
    intro f₁ f₂ h₁ h₂
    match f₁, f₂ with
    | g₁ + 1, g₂ + 1 =>
      by_cases hn : n < 10
      · simp [toDecF, hn]
      · have hd : n / 10 < n := Nat.div_lt_self (by omega) (by omega)
        simp only [toDecF, if_neg hn]
        rw [ih (n / 10) hd g₁ g₂ (by omega) (by omega)]

theorem toDec_eq (n : Nat) :
    toDec n = if n < 10 then [Nat.digitChar n] else toDec (n / 10) ++ [Nat.digitChar (n % 10)] := by
  have hstep : toDec n
      = if n < 10 then [Nat.digitChar n] else toDecF n (n / 10) ++ [Nat.digitChar (n % 10)] := rfl
  rw [hstep]
  by_cases hn : n < 10
  · rw [if_pos hn, if_pos hn]
  · have hd : n / 10 < n := Nat.div_lt_self (by omega) (by omega)
    rw [if_neg hn, if_neg hn]
    rw [toDecF_irrel (n / 10) n (n / 10 + 1) hd (by omega)]
    rfl

theorem digitChar_isDigit {k : Nat} (h : k < 10) : (Nat.digitChar k).isDigit = true := by
  have : k = 0 ∨ k = 1 ∨ k = 2 ∨ k = 3 ∨ k = 4 ∨ k = 5 ∨ k = 6 ∨ k = 7 ∨ k = 8 ∨ k = 9 := by
    omega
  rcases this with rfl | rfl | rfl | rfl | rfl | rfl | rfl | rfl | rfl | rfl <;> decide

theorem digitChar_val {k : Nat} (h : k < 10) : (Nat.digitChar k).toNat - '0'.toNat = k := by
  have : k = 0 ∨ k = 1 ∨ k = 2 ∨ k = 3 ∨ k = 4 ∨ k = 5 ∨ k = 6 ∨ k = 7 ∨ k = 8 ∨ k = 9 := by
    omega
  rcases this with rfl | rfl | rfl | rfl | rfl | rfl | rfl | rfl | rfl | rfl <;> decide

theorem toDec_all_digits : ∀ n : Nat, ∀ c ∈ toDec n, c.isDigit = true := by
  intro n
  induction n using Nat.strongRecOn with
  | _ n ih =>
    intro c hc
    rw [toDec_eq] at hc
    by_cases hn : n < 10
    · rw [if_pos hn] at hc
      rcases List.mem_singleton.mp hc with rfl
      exact digitChar_isDigit hn
    · rw [if_neg hn] at hc
      rcases List.mem_append.mp hc with h | h
      · exact ih (n / 10) (Nat.div_lt_self (by omega) (by omega)) c h
      · rcases List.mem_singleton.mp h with rfl
        exact digitChar_isDigit (Nat.mod_lt n (by omega))

theorem takeWhile_append_of_all {p : Char → Bool} {a : Str} (b : Str)
    (h : ∀ x ∈ a, p x = true) : (a ++ b).takeWhile p = a ++ b.takeWhile p := by
  induction a with
  | nil => simp
  | cons x t ih =>
    have hx : p x = true := h x (by simp)
    simp only [List.cons_append, List.takeWhile_cons, hx, if_true]
    rw [ih fun y hy => h y (List.mem_cons_of_mem x hy)]

theorem foldl_digits_toDec : ∀ n : Nat,
    (toDec n).foldl (fun a c => a * 10 + (c.toNat - '0'.toNat)) 0 = n := by
  intro n
  induction n using Nat.strongRecOn with
  | _ n ih =>
    rw [toDec_eq]
    by_cases hn : n < 10
    · rw [if_pos hn]
      simp only [List.foldl]
      rw [digitChar_val hn]
      omega
    · rw [if_neg hn, List.foldl_append]
      rw [ih (n / 10) (Nat.div_lt_self (by omega) (by omega))]
      simp only [List.foldl]
      rw [digitChar_val (Nat.mod_lt n (by omega))]
      omega

theorem leadingNat_toDec_append (n : Nat) (rest : Str)
    (h : rest.takeWhile Char.isDigit = []) :
    leadingNat (toDec n ++ rest) = n := by
  unfold leadingNat
  rw [takeWhile_append_of_all rest (toDec_all_digits n)]
  rw [h, List.append_nil]
  exact foldl_digits_toDec n

theorem extractBandwidth_streamInfLine (r : ProcessedResolution) :
    extractBandwidth (streamInfLine r) = some r.bandwidth := by
  have hps : streamInfLine r
      = "#EXT-X-STREAM-INF:BANDWIDTH=".toList ++ (toDec r.bandwidth ++
        (",RESOLUTION=".toList ++ (r.size ++ ",CODECS=\"avc1.42E01E,mp4a.40.2\"".toList))) := by
    unfold streamInfLine
    simp [List.append_assoc]
  have h28 : ("#EXT-X-STREAM-INF:BANDWIDTH=".toList : Str).length = 28 := by decide
  unfold extractBandwidth startsWith
  rw [hps, if_pos (List.isPrefixOf_iff_prefix.mpr (List.prefix_append _ _))]
  congr 1
  rw [← h28, List.drop_left]
  exact leadingNat_toDec_append _ _ rfl

theorem no_nl_streamInfLine (r : ProcessedResolution) (h : '\n' ∉ r.size) :
    '\n' ∉ streamInfLine r := by
  unfold streamInfLine
  intro hmem
  simp only [List.append_assoc, List.mem_append] at hmem
  rcases hmem with h1 | h2 | h3 | h4 | h5
  · revert h1; decide
  · have := toDec_all_digits r.bandwidth '\n' h2
    simp at this
  · revert h3; decide
  · exact h h4
  · revert h5; decide

theorem splitLines_cons_of_sep {l : Str} (h : '\n' ∉ l) (rest : Str) :
    splitLines (l ++ '\n' :: rest) = l :: splitLines rest := by
  unfold splitLines splitOnChar
  rw [splitOnCharAux_append_sep '\n' l h rest []]
  simp

theorem splitLines_masterFold (proxy : Str) : ∀ rs : List ProcessedResolution,
    (∀ r ∈ rs, '\n' ∉ streamInfLine r ∧ '\n' ∉ proxy ++ r.playlistRelativePath) →
    splitLines (rs.foldr (fun r acc =>
        streamInfLine r ++ '\n' :: (proxy ++ r.playlistRelativePath) ++ '\n' :: acc) []) =
      rs.foldr (fun r acc => streamInfLine r :: (proxy ++ r.playlistRelativePath) :: acc) [[]] := by
  intro rs h
  induction rs with
  | nil => rfl
  | cons r t ih =>
    rw [List.foldr_cons, List.append_assoc, List.cons_append]
    rw [splitLines_cons_of_sep (h r (by simp)).1]
    rw [splitLines_cons_of_sep (h r (by simp)).2]
    rw [ih fun x hx => h x (List.mem_cons_of_mem r hx)]
    rfl

theorem filterMap_extract_masterFold : ∀ (proxy : Str) (L : List ProcessedResolution),
    (∀ r ∈ L, startsWith "#EXT-X-STREAM-INF:BANDWIDTH=".toList
        (proxy ++ r.playlistRelativePath) = false) →
    (L.foldr (fun r acc => streamInfLine r :: (proxy ++ r.playlistRelativePath) :: acc)
        [[]]).filterMap extractBandwidth
      = L.map ProcessedResolution.bandwidth := by
  intro proxy L h
  induction L with
  | nil => rfl
  | cons r t ih =>
    have hnone : extractBandwidth (proxy ++ r.playlistRelativePath) = none := by
      unfold extractBandwidth
      rw [if_neg]
      intro hcon
      rw [h r (by simp)] at hcon
      exact Bool.false_ne_true hcon
    simp only [List.foldr, List.map, List.filterMap_cons, extractBandwidth_streamInfLine r, hnone]
    rw [ih fun x hx => h x (List.mem_cons_of_mem r hx)]

/-- **C4.** The master playlist built from any set of successful encode
outcomes lists exactly one `#EXT-X-STREAM-INF` line per success and the
declared `BANDWIDTH=` values read back from the text in non-decreasing
order, regardless of the order the outcomes are supplied in.  (The
hypotheses only rule out degenerate field contents: newlines inside the
probed size or paths, and a URI line that itself spells a variant tag.) -/
theorem masterPlaylist_bandwidth_sorted (proxy : Str) (rs : List ProcessedResolution)
    (hsz : ∀ r ∈ rs, '\n' ∉ r.size)
    (hpath : ∀ r ∈ rs, '\n' ∉ proxy ++ r.playlistRelativePath)
    (huri : ∀ r ∈ rs, startsWith "#EXT-X-STREAM-INF:BANDWIDTH=".toList
        (proxy ++ r.playlistRelativePath) = false) :
    (splitLines (masterPlaylistContent proxy rs)).filterMap extractBandwidth
      = (sortByBandwidth rs).map ProcessedResolution.bandwidth ∧
    List.Sorted (· ≤ ·)
      ((splitLines (masterPlaylistContent proxy rs)).filterMap extractBandwidth) := by
  have hmem : ∀ r, r ∈ sortByBandwidth rs ↔ r ∈ rs := fun r =>
    (List.perm_insertionSort bwLE rs).mem_iff
  have key : (splitLines (masterPlaylistContent proxy rs)).filterMap extractBandwidth
      = (sortByBandwidth rs).map ProcessedResolution.bandwidth := by
    unfold masterPlaylistContent
    rw [show ("#EXTM3U\n#EXT-X-VERSION:3\n".toList : Str) ++ (sortByBandwidth rs).foldr
        (fun r acc =>
          streamInfLine r ++ '\n' :: (proxy ++ r.playlistRelativePath) ++ '\n' :: acc) []
      = "#EXTM3U".toList ++ '\n' :: ("#EXT-X-VERSION:3".toList ++ '\n' ::
          (sortByBandwidth rs).foldr (fun r acc =>
            streamInfLine r ++ '\n' :: (proxy ++ r.playlistRelativePath) ++ '\n' :: acc) [])
      from rfl]
    rw [splitLines_cons_of_sep (by decide)]
    rw [splitLines_cons_of_sep (by decide)]
    rw [splitLines_masterFold proxy (sortByBandwidth rs) (fun r hr =>
      ⟨no_nl_streamInfLine r (hsz r ((hmem r).mp hr)), hpath r ((hmem r).mp hr)⟩)]
    rw [List.filterMap_cons, List.filterMap_cons]
    rw [show extractBandwidth "#EXTM3U".toList = none from by decide]
    rw [show extractBandwidth "#EXT-X-VERSION:3".toList = none from by decide]
    exact filterMap_extract_masterFold proxy (sortByBandwidth rs)
      (fun r hr => huri r ((hmem r).mp hr))
  refine ⟨key, ?_⟩
  rw [key]
  have hs : List.Sorted bwLE (sortByBandwidth rs) := List.sorted_insertionSort bwLE rs
  exact List.Pairwise.map ProcessedResolution.bandwidth (fun a b hab => hab) hs

/-- **C4, witness.** The ordering theorem applied to two concrete outcomes
supplied in descending order. -/
theorem masterPlaylist_bandwidth_sorted_witness :
    (splitLines (masterPlaylistContent "b/".toList [sample720, sample360])).filterMap
        extractBandwidth
      = (sortByBandwidth [sample720, sample360]).map ProcessedResolution.bandwidth ∧
    List.Sorted (· ≤ ·)
      ((splitLines (masterPlaylistContent "b/".toList [sample720, sample360])).filterMap
        extractBandwidth) :=
  masterPlaylist_bandwidth_sorted "b/".toList [sample720, sample360]
    (by decide) (by decide) (by decide)

/-! ## C6 — the audio URI normalizer -/

theorem replAF_length_le : ∀ (f : Nat) (s : Str), (replAF f s).length ≤ s.length := by
  intro f
  induction f with
  | zero => intro s; simp [replAF]
  | succ g ih =>
    intro s
    cases s with
    | nil => simp [replAF]
    | cons c t =>
      rw [replAF]
      by_cases hp : audioAudioPat.isPrefixOf (c :: t) = true
      · rw [if_pos hp]
        have hlen : audioAudioPat.length ≤ (c :: t).length :=
          (List.isPrefixOf_iff_prefix.mp hp).length_le
        have := ih ((c :: t).drop audioAudioPat.length)
        have hp12 : audioAudioPat.length = 12 := by decide
        have hp6 : audioPat.length = 6 := by decide
        simp only [List.length_append, List.length_drop, List.length_cons, hp12, hp6] at *
        omega
      · rw [if_neg hp]
        have := ih t
        simp only [List.length_cons]
        omega

theorem replAF_length_lt : ∀ (f : Nat) (s : Str), s.length ≤ f →
    containsSub audioAudioPat s = true → (replAF f s).length < s.length := by
  intro f
  induction f with
  | zero =>
    intro s hf hc
    have : s = [] := List.length_eq_zero.mp (Nat.le_zero.mp hf)
    subst this
    simp [containsSub, audioAudioPat] at hc
  | succ g ih =>
    intro s hf hc
    cases s with
    | nil => simp [containsSub, audioAudioPat] at hc
    | cons c t =>
      rw [replAF]
      by_cases hp : audioAudioPat.isPrefixOf (c :: t) = true
      · rw [if_pos hp]
        have hlen : audioAudioPat.length ≤ (c :: t).length :=
          (List.isPrefixOf_iff_prefix.mp hp).length_le
        have := replAF_length_le g ((c :: t).drop audioAudioPat.length)
        have hp12 : audioAudioPat.length = 12 := by decide
        have hp6 : audioPat.length = 6 := by decide
        simp only [List.length_append, List.length_drop, List.length_cons, hp12, hp6] at *
        omega
      · rw [if_neg hp]
        rw [containsSub, Bool.or_eq_true] at hc
        rcases hc with hc | hc
        · exact absurd hc hp
        · have := ih t (by simpa using Nat.le_of_succ_le_succ hf) hc
          simp only [List.length_cons]
          omega

theorem replA_length_lt {s : Str} (hc : containsSub audioAudioPat s = true) :
    (replA s).length < s.length :=
  replAF_length_lt s.length s le_rfl hc

theorem stripAF_no_pattern : ∀ (f : Nat) (s : Str), s.length ≤ f →
    containsSub audioAudioPat (stripAF f s) = false := by
  intro f
  induction f with
  | zero =>
    intro s hf
    have : s = [] := List.length_eq_zero.mp (Nat.le_zero.mp hf)
    subst this
    simp [stripAF, containsSub, audioAudioPat]
  | succ g ih =>
    intro s hf
    rw [stripAF]
    by_cases hc : containsSub audioAudioPat s = true
    · rw [if_pos hc]
      exact ih (replA s) (by
        have := replA_length_lt hc
        omega)
    · rw [if_neg hc]
      exact Bool.not_eq_true _ ▸ (by simpa using hc)

theorem stripA_no_pattern (s : Str) : containsSub audioAudioPat (stripA s) = false :=
  stripAF_no_pattern s.length s le_rfl

theorem noDoubleSlash_cons {c : Char} {t : Str} :
    noDoubleSlash (c :: t) = (!(c = '/' && t.headD ' ' = '/') && noDoubleSlash t) := rfl

theorem noDoubleSlash_tail {c : Char} {t : Str} (h : noDoubleSlash (c :: t) = true) :
    noDoubleSlash t = true := by
  rw [noDoubleSlash_cons, Bool.and_eq_true] at h
  exact h.2

theorem noDoubleSlash_drop : ∀ (n : Nat) (s : Str), noDoubleSlash s = true →
    noDoubleSlash (s.drop n) = true := by
  intro n
  induction n with
  | zero => intro s h; simpa using h
  | succ m ih =>
    intro s h
    cases s with
    | nil => simp [noDoubleSlash]
    | cons c t => exact ih t (noDoubleSlash_tail h)

theorem replAF_nil : ∀ f : Nat, replAF f [] = [] := by
  intro f
  cases f <;> rfl

theorem noDoubleSlash_head_after_pat {rest : Str}
    (h : noDoubleSlash (audioAudioPat ++ rest) = true) : (rest.headD ' ' = '/') = False := by
  rw [show audioAudioPat ++ rest
    = 'a' :: 'u' :: 'd' :: 'i' :: 'o' :: '/' :: 'a' :: 'u' :: 'd' :: 'i' :: 'o' :: '/' :: rest from rfl] at h
  simp only [noDoubleSlash_cons, Bool.and_eq_true, Bool.not_eq_true'] at h
  obtain ⟨_, _, _, _, _, _, _, _, _, _, _, h12, _⟩ := h
  simp only [eq_iff_iff, iff_false]
  intro hr
  cases rest with
  | nil => simp at hr
  | cons x u =>
    simp only [List.headD_cons] at hr
    simp [hr] at h12

theorem noDoubleSlash_audioPat_append {w : Str} (hw : noDoubleSlash w = true)
    (hh : (w.headD ' ' = '/') = False) : noDoubleSlash (audioPat ++ w) = true := by
  rw [show audioPat ++ w = 'a' :: 'u' :: 'd' :: 'i' :: 'o' :: '/' :: w from rfl]
  simp only [noDoubleSlash_cons, Bool.and_eq_true, Bool.not_eq_true']
  refine ⟨by simp, by simp, by simp, by simp, by simp, ?_, hw⟩
  cases w with
  | nil => simp
  | cons x t =>
    rw [List.headD_cons]
    simp only [eq_iff_iff, iff_false] at hh
    simp only [List.headD_cons] at hh
    simp [hh]

theorem noDoubleSlash_audioAudioPat_decompose {s : Str}
    (hp : audioAudioPat.isPrefixOf s = true) :
    s = audioAudioPat ++ s.drop audioAudioPat.length := by
  rcases List.isPrefixOf_iff_prefix.mp hp with ⟨rest, hrest⟩
  subst hrest
  rw [List.drop_left]

theorem replAF_preserves : ∀ (f : Nat) (s : Str), noDoubleSlash s = true →
    noDoubleSlash (replAF f s) = true ∧
    ((replAF f s).headD ' ' = '/' → s.headD ' ' = '/') := by
  intro f
  induction f with
  | zero => intro s h; exact ⟨h, fun hh => hh⟩
  | succ g ih =>
    intro s h
    cases s with
    | nil => exact ⟨by simp [replAF, noDoubleSlash], by simp [replAF]⟩
    | cons c t =>
      rw [replAF]
      by_cases hp : audioAudioPat.isPrefixOf (c :: t) = true
      · rw [if_pos hp]
        have hdec := noDoubleSlash_audioAudioPat_decompose hp
        have hdrop : noDoubleSlash ((c :: t).drop audioAudioPat.length) = true :=
          noDoubleSlash_drop _ _ h
        have hdhead : (((c :: t).drop audioAudioPat.length).headD ' ' = '/') = False :=
          noDoubleSlash_head_after_pat (hdec ▸ h)
        rcases ih ((c :: t).drop audioAudioPat.length) hdrop with ⟨ih1, ih2⟩
        constructor
        · refine noDoubleSlash_audioPat_append ih1 ?_
          simp only [eq_iff_iff, iff_false]
          intro hh
          have := ih2 hh
          rw [hdhead] at this
          exact this
        · intro hh
          rw [show (audioPat ++ replAF g ((c :: t).drop audioAudioPat.length)).headD ' '
            = 'a' from rfl] at hh
          exact absurd hh (by decide)
      · rw [if_neg hp]
        rcases ih t (noDoubleSlash_tail h) with ⟨ih1, ih2⟩
        constructor
        · rw [noDoubleSlash_cons, Bool.and_eq_true]
          refine ⟨?_, ih1⟩
          rw [noDoubleSlash_cons, Bool.and_eq_true] at h
          rcases h with ⟨h1, _⟩
          simp only [Bool.not_eq_true', Bool.and_eq_false_iff] at h1 ⊢
          rcases h1 with h1 | h1
          · exact Or.inl h1
          · right
            cases t with
            | nil => simp [replAF_nil]
            | cons x u =>
              simp only [decide_eq_false_iff_not] at h1 ⊢
              intro hcon
              exact h1 (ih2 hcon)
        · intro hh
          simpa using hh

theorem stripAF_preserves : ∀ (f : Nat) (s : Str), noDoubleSlash s = true →
    noDoubleSlash (stripAF f s) = true ∧
    ((stripAF f s).headD ' ' = '/' → s.headD ' ' = '/') := by
  intro f
  induction f with
  | zero => intro s h; exact ⟨h, fun hh => hh⟩
  | succ g ih =>
    intro s h
    rw [stripAF]
    by_cases hc : containsSub audioAudioPat s = true
    · rw [if_pos hc]
      rcases replAF_preserves s.length s h with ⟨r1, r2⟩
      rcases ih (replA s) r1 with ⟨i1, i2⟩
      exact ⟨i1, fun hh => r2 (i2 hh)⟩
    · rw [if_neg hc]
      exact ⟨h, fun hh => hh⟩

theorem containsSub_audioPat_prepend {w : Str}
    (h1 : containsSub audioAudioPat w = false) (h2 : startsWith audioPat w = false) :
    containsSub audioAudioPat (audioPat ++ w) = false := by
  rw [show audioPat ++ w = 'a' :: 'u' :: 'd' :: 'i' :: 'o' :: '/' :: w from rfl]
  rw [containsSub, containsSub, containsSub, containsSub, containsSub, containsSub]
  rw [h1]
  simp only [Bool.or_false]
  have e1 : audioAudioPat.isPrefixOf ('a' :: 'u' :: 'd' :: 'i' :: 'o' :: '/' :: w) = false := by
    rw [show ('a' :: 'u' :: 'd' :: 'i' :: 'o' :: '/' :: w : Str) = audioPat ++ w from rfl]
    rw [show audioAudioPat = audioPat ++ audioPat from rfl]
    rw [← Bool.not_eq_true]
    intro hcon
    have := List.isPrefixOf_iff_prefix.mp hcon
    rw [List.prefix_append_right_inj] at this
    rw [← List.isPrefixOf_iff_prefix] at this
    unfold startsWith at h2
    rw [this] at h2
    exact Bool.true_eq_false.mp h2
  rw [e1]
  have e2 : audioAudioPat.isPrefixOf ('u' :: 'd' :: 'i' :: 'o' :: '/' :: w) = false := by
    rw [show audioAudioPat = 'a' :: 'u' :: 'd' :: 'i' :: 'o' :: '/' :: 'a' :: 'u' :: 'd' :: 'i' :: 'o' :: '/' ::[]
      from rfl]
    simp [List.isPrefixOf]
  rw [e2]
  have e3 : audioAudioPat.isPrefixOf ('d' :: 'i' :: 'o' :: '/' :: w) = false := by
    rw [show audioAudioPat = 'a' :: 'u' :: 'd' :: 'i' :: 'o' :: '/' :: 'a' :: 'u' :: 'd' :: 'i' :: 'o' :: '/' ::[]
      from rfl]
    simp [List.isPrefixOf]
  rw [e3]
  have e4 : audioAudioPat.isPrefixOf ('i' :: 'o' :: '/' :: w) = false := by
    rw [show audioAudioPat = 'a' :: 'u' :: 'd' :: 'i' :: 'o' :: '/' :: 'a' :: 'u' :: 'd' :: 'i' :: 'o' :: '/' ::[]
      from rfl]
    simp [List.isPrefixOf]
  rw [e4]
  have e5 : audioAudioPat.isPrefixOf ('o' :: '/' :: w) = false := by
    rw [show audioAudioPat = 'a' :: 'u' :: 'd' :: 'i' :: 'o' :: '/' :: 'a' :: 'u' :: 'd' :: 'i' :: 'o' :: '/' ::[]
      from rfl]
    simp [List.isPrefixOf]
  rw [e5]
  have e6 : audioAudioPat.isPrefixOf ('/' :: w) = false := by
    rw [show audioAudioPat = 'a' :: 'u' :: 'd' :: 'i' :: 'o' :: '/' :: 'a' :: 'u' :: 'd' :: 'i' :: 'o' :: '/' ::[]
      from rfl]
    simp [List.isPrefixOf]
  rw [e6]
  simp

theorem collapseF_eq_self : ∀ (f : Nat) (s : Str), noDoubleSlash s = true →
    s.length ≤ f → collapseF f s = s := by
  intro f
  induction f with
  | zero =>
    intro s _ hf
    have : s = [] := List.length_eq_zero.mp (Nat.le_zero.mp hf)
    subst this
    rfl
  | succ g ih =>
    intro s h hf
    cases s with
    | nil => rfl
    | cons c t =>
      rw [collapseF]
      by_cases hc : c = '/'
      · rw [if_pos hc]
        have hdw : t.dropWhile (fun d => d = '/') = t := by
          cases t with
          | nil => rfl
          | cons x u =>
            rw [noDoubleSlash_cons, Bool.and_eq_true] at h
            rcases h with ⟨hg, _⟩
            simp only [Bool.not_eq_true', Bool.and_eq_false_iff, decide_eq_false_iff_not] at hg
            rcases hg with hg | hg
            · exact absurd hc hg
            · simp only [List.headD_cons] at hg
              rw [List.dropWhile_cons]
              simp [hg]
        rw [hdw]
        rw [ih t (noDoubleSlash_tail h) (by simpa using Nat.le_of_succ_le_succ hf)]
      · rw [if_neg hc]
        rw [ih t (noDoubleSlash_tail h) (by simpa using Nat.le_of_succ_le_succ hf)]

theorem dropWhile_slash_head (t : Str) :
    ((t.dropWhile (fun d => d = '/')).headD ' ' = '/') = False := by
  induction t with
  | nil => simp
  | cons x u ih =>
    rw [List.dropWhile_cons]
    by_cases hx : x = '/'
    · subst hx
      simpa using ih
    · simp [hx]

theorem collapseF_noDS : ∀ (f : Nat) (s : Str), s.length ≤ f →
    noDoubleSlash (collapseF f s) = true ∧ (collapseF f s).headD ' ' = s.headD ' ' := by
  intro f
  induction f with
  | zero =>
    intro s hf
    have : s = [] := List.length_eq_zero.mp (Nat.le_zero.mp hf)
    subst this
    exact ⟨rfl, rfl⟩
  | succ g ih =>
    intro s hf
    cases s with
    | nil => exact ⟨rfl, rfl⟩
    | cons c t =>
      rw [collapseF]
      by_cases hc : c = '/'
      · rw [if_pos hc]
        have hdwlen : (t.dropWhile (fun d => d = '/')).length ≤ g := by
          have hsubdw : List.Sublist (List.dropWhile (fun d => decide (d = '/')) t) t :=
            List.dropWhile_sublist _
          have := hsubdw.length_le
          simp only [List.length_cons] at hf
          omega
        rcases ih (t.dropWhile (fun d => d = '/')) hdwlen with ⟨i1, i2⟩
        constructor
        · rw [noDoubleSlash_cons, Bool.and_eq_true]
          refine ⟨?_, i1⟩
          have hb : decide ((collapseF g (t.dropWhile (fun d => d = '/'))).headD ' ' = '/')
              = false := by
            refine decide_eq_false ?_
            rw [i2]
            have := dropWhile_slash_head t
            simp only [eq_iff_iff, iff_false] at this
            exact this
          rw [hb]
          simp
        · simp
      · rw [if_neg hc]
        have htlen : t.length ≤ g := by
          simp only [List.length_cons] at hf
          omega
        rcases ih t htlen with ⟨i1, i2⟩
        constructor
        · rw [noDoubleSlash_cons, Bool.and_eq_true]
          refine ⟨?_, i1⟩
          simp [hc]
        · simp

theorem collapseF_nonslash_front : ∀ (a : Str), (∀ c ∈ a, (c = '/') = False) →
    ∀ (f : Nat) (s : Str), a.length ≤ f →
    collapseF f (a ++ s) = a ++ collapseF (f - a.length) s := by
  intro a
  induction a with
  | nil => intro _ f s _; simp
  | cons c a' ih =>
    intro h f s hf
    match f with
    | g + 1 =>
      have hc : (c = '/') = False := h c (by simp)
      have hfuel : g + 1 - (c :: a').length = g - a'.length := by
        simp only [List.length_cons]
        omega
      rw [hfuel, List.cons_append, collapseF]
      rw [if_neg (by rw [hc]; exact fun x => x)]
      rw [ih (fun d hd => h d (List.mem_cons_of_mem c hd)) g s (by
        simp only [List.length_cons] at hf
        omega)]
      rfl

theorem collapseSlashes_audioPat_shape (w : Str) :
    ∃ w', collapseSlashes (audioPat ++ w) = audioPat ++ w' := by
  unfold collapseSlashes
  rw [show audioPat ++ w = "audio".toList ++ ('/' :: w) from rfl]
  rw [collapseF_nonslash_front "audio".toList (by decide) _ _ (by
    simp [List.length_append])]
  have h5 : ("audio".toList : Str).length = 5 := by decide
  have hlen : (("audio".toList : Str) ++ '/' :: w).length - 5 = w.length + 1 := by
    simp [List.length_append, h5]
  rw [h5, hlen, collapseF]
  rw [if_pos rfl]
  exact ⟨collapseF w.length (w.dropWhile (fun d => d = '/')), rfl⟩

theorem startsWith_decompose {pat s : Str} (h : startsWith pat s = true) :
    s = pat ++ s.drop pat.length := by
  rcases List.isPrefixOf_iff_prefix.mp h with ⟨rest, hrest⟩
  subst hrest
  rw [List.drop_left]

theorem normalizeAudioUri_unfold {u : Str} (hu : u ≠ []) :
    normalizeAudioUri u
      = collapseSlashes
          (if startsWith audioPat (stripA u) then stripA u else audioPat ++ stripA u) := by
  rw [normalizeAudioUri, if_neg hu]

theorem stripA_eq_self {s : Str} (h : containsSub audioAudioPat s = false) :
    stripA s = s := by
  unfold stripA
  cases s with
  | nil => rfl
  | cons c t =>
    rw [show ((c :: t : Str)).length = t.length + 1 from rfl, stripAF, if_neg (by simp [h])]

theorem collapseSlashes_eq_self {s : Str} (h : noDoubleSlash s = true) :
    collapseSlashes s = s :=
  collapseF_eq_self s.length s h le_rfl

/-- **C6, counterexample.** `normalizeAudioUri` is not idempotent and its
output can contain the forbidden `audio/audio/` duplication: on `"/audio/x"`
the prefix-enforcement step manufactures `audio//audio/x`, the final
slash-collapse turns it into `audio/audio/x`, and a second application
strips it down to `audio/x`. -/
theorem normalizeAudioUri_not_idempotent :
    normalizeAudioUri "/audio/x".toList = "audio/audio/x".toList ∧
    normalizeAudioUri (normalizeAudioUri "/audio/x".toList) = "audio/x".toList ∧
    normalizeAudioUri (normalizeAudioUri "/audio/x".toList) ≠ normalizeAudioUri "/audio/x".toList ∧
    containsSub audioAudioPat (normalizeAudioUri "/audio/x".toList) = true := by
  refine ⟨by decide, by decide, by decide, by decide⟩

/-- **C6, amended.** For every non-empty input the result of
`normalizeAudioUri` starts with `audio/` and contains no double slash; and
for every non-empty input that does not start with `/` and contains no
double slash, the function is idempotent and its output is free of the
`audio/audio/` duplication.  (Counterexample `"/audio/x"` shows both extra
hypotheses are necessary.) -/
theorem normalizeAudioUri_amended (u : Str) :
    (u ≠ [] → startsWith audioPat (normalizeAudioUri u) = true) ∧
    noDoubleSlash (normalizeAudioUri u) = true ∧
    ((u.headD ' ' = '/') = False → noDoubleSlash u = true → u ≠ [] →
      normalizeAudioUri (normalizeAudioUri u) = normalizeAudioUri u ∧
      containsSub audioAudioPat (normalizeAudioUri u) = false) := by
  refine ⟨?_, ?_, ?_⟩
  · intro hu
    rw [normalizeAudioUri_unfold hu]
    by_cases hsw : startsWith audioPat (stripA u) = true
    · rw [if_pos hsw]
      rw [startsWith_decompose hsw]
      rcases collapseSlashes_audioPat_shape ((stripA u).drop audioPat.length) with ⟨w', hw'⟩
      rw [hw']
      exact List.isPrefixOf_iff_prefix.mpr (List.prefix_append _ _)
    · rw [if_neg hsw]
      rcases collapseSlashes_audioPat_shape (stripA u) with ⟨w', hw'⟩
      rw [hw']
      exact List.isPrefixOf_iff_prefix.mpr (List.prefix_append _ _)
  · by_cases hu : u = []
    · subst hu
      rfl
    · rw [normalizeAudioUri_unfold hu]
      exact (collapseF_noDS _ _ le_rfl).1
  · intro hh hds hu
    have wpat : containsSub audioAudioPat (stripA u) = false := stripA_no_pattern u
    rcases stripAF_preserves u.length u hds with ⟨wds, whead⟩
    have wheadf : ((stripA u).headD ' ' = '/') = False := by
      simp only [eq_iff_iff, iff_false]
      intro hcon
      have := whead hcon
      rw [hh] at this
      exact this
    set x := if startsWith audioPat (stripA u) then stripA u else audioPat ++ stripA u with hx
    have xpat : containsSub audioAudioPat x = false := by
      rw [hx]
      by_cases hsw : startsWith audioPat (stripA u) = true
      · rw [if_pos hsw]; exact wpat
      · rw [if_neg hsw]
        exact containsSub_audioPat_prepend wpat (by simpa using hsw)
    have xds : noDoubleSlash x = true := by
      rw [hx]
      by_cases hsw : startsWith audioPat (stripA u) = true
      · rw [if_pos hsw]; exact wds
      · rw [if_neg hsw]
        exact noDoubleSlash_audioPat_append wds wheadf
    have xsw : startsWith audioPat x = true := by
      rw [hx]
      by_cases hsw : startsWith audioPat (stripA u) = true
      · rw [if_pos hsw]; exact hsw
      · rw [if_neg hsw]
        exact List.isPrefixOf_iff_prefix.mpr (List.prefix_append _ _)
    have hnu : normalizeAudioUri u = x := by
      rw [normalizeAudioUri_unfold hu, ← hx]
      exact collapseSlashes_eq_self xds
    have xne : x ≠ [] := by
      intro hcon
      rw [hcon] at xsw
      revert xsw
      decide
    constructor
    · rw [hnu]
      rw [normalizeAudioUri_unfold xne]
      rw [stripA_eq_self xpat, if_pos xsw]
      exact collapseSlashes_eq_self xds
    · rw [hnu]
      exact xpat

/-- **C6, witness.** The amended theorem at `"en.m3u8"`: the result
`audio/en.m3u8` starts with `audio/`, has no double slash, and renormalizing
it changes nothing. -/
theorem normalizeAudioUri_amended_witness :
    startsWith audioPat (normalizeAudioUri "en.m3u8".toList) = true ∧
    noDoubleSlash (normalizeAudioUri "en.m3u8".toList) = true ∧
    normalizeAudioUri (normalizeAudioUri "en.m3u8".toList)
      = normalizeAudioUri "en.m3u8".toList :=
  ⟨(normalizeAudioUri_amended "en.m3u8".toList).1 (by decide),
    (normalizeAudioUri_amended "en.m3u8".toList).2.1,
    ((normalizeAudioUri_amended "en.m3u8".toList).2.2 (by decide) (by decide) (by decide)).1⟩

/-! ## C9 — the VTT rewrite of `processM3U8Content` -/

theorem replaceURIsF_id (baseUrl : Str) : ∀ (f : Nat) (s : Str),
    containsSub uriAttrPat s = false → replaceURIsF baseUrl f s = s := by
  intro f
  induction f with
  | zero => intro s _; rfl
  | succ g ih =>
    intro s h
    cases s with
    | nil => rfl
    | cons c t =>
      rw [containsSub] at h
      rw [Bool.or_eq_false_iff] at h
      rw [replaceURIsF, if_neg (by simp [h.1]), ih t h.2]

theorem take_of_prefix_le {lit pat : Str} (hlit : lit <+: pat) {k : Nat}
    (hk : k ≤ lit.length) : pat.take k = lit.take k := by
  rw [List.prefix_iff_eq_take.mp hlit, List.take_take]
  congr 1
  omega

theorem isPrefixOf_straddle {pat lit : Str} {p y : Str}
    (hlit : lit <+: pat) (hlen : pat.length ≤ lit.length + 1) (hp : p ≠ [])
    (h : pat.isPrefixOf (p ++ (pat ++ y)) = true) :
    containsSub pat (p ++ lit) = true := by
  have hpre : pat <+: p ++ (pat ++ y) := List.isPrefixOf_iff_prefix.mp h
  have heq : pat = (p ++ (pat ++ y)).take pat.length := List.prefix_iff_eq_take.mp hpre
  rw [List.take_append_eq_append_take] at heq
  have hm : 1 ≤ p.length := by
    cases p with
    | nil => exact absurd rfl hp
    | cons a b => simp
  rw [containsSub_infix_iff]
  by_cases hcase : p.length < pat.length
  · have htk : (pat ++ y).take (pat.length - p.length) = lit.take (pat.length - p.length) := by
      rw [List.take_append_of_le_length (by omega)]
      exact take_of_prefix_le hlit (by omega)
    rw [htk] at heq
    have hptake : p.take pat.length = p := List.take_of_length_le (by omega)
    rw [hptake] at heq
    refine List.IsPrefix.isInfix ?_
    rw [heq]
    rw [List.prefix_append_right_inj]
    exact List.take_prefix _ _
  · have htk : (pat ++ y).take (pat.length - p.length) = [] := by
      have : pat.length - p.length = 0 := by omega
      rw [this, List.take_zero]
    rw [htk, List.append_nil] at heq
    refine List.IsPrefix.isInfix ?_
    rw [heq]
    exact (List.take_prefix _ _).trans (List.prefix_append _ _)

theorem takeWhile_no_quote {u : Str} (hu : '"' ∉ u) (q : Str) :
    (u ++ '"' :: q).takeWhile (fun d => d ≠ '"') = u := by
  rw [takeWhile_append_of_all _ (fun x hx => by
    simp only [ne_eq, decide_eq_true_eq]
    intro hcon
    exact hu (hcon ▸ hx))]
  rw [List.takeWhile_cons]
  simp

theorem drop_succ_append (u : Str) (c : Char) (q : Str) :
    (u ++ c :: q).drop (u.length + 1) = q := by
  rw [← List.drop_drop, List.drop_left]
  rfl

theorem replaceURIsF_scan (baseUrl : Str) : ∀ (p : Str) (f : Nat) (u q : Str),
    containsSub uriAttrPat (p ++ "URI=".toList) = false →
    '"' ∉ u → u ≠ [] →
    containsSub uriAttrPat q = false →
    (p ++ (uriAttrPat ++ (u ++ '"' :: q))).length ≤ f →
    replaceURIsF baseUrl f (p ++ (uriAttrPat ++ (u ++ '"' :: q)))
      = p ++ (uriReplacement baseUrl u ++ q) := by
  intro p
  induction p with
  | nil =>
    intro f u q _ huq hune hq hf
    simp only [List.nil_append, List.length_append] at hf
    match f with
    | g + 1 =>
      have harg : (uriAttrPat ++ (u ++ '"' :: q) : Str)
          = 'U' :: ("RI=\"".toList ++ (u ++ '"' :: q)) := rfl
      have hpre : uriAttrPat.isPrefixOf ('U' :: ("RI=\"".toList ++ (u ++ '"' :: q))) = true := by
        rw [← harg]
        exact List.isPrefixOf_iff_prefix.mpr (List.prefix_append _ _)
      have hdrop : ('U' :: ("RI=\"".toList ++ (u ++ '"' :: q)) : Str).drop uriAttrPat.length
          = u ++ '"' :: q := by
        rw [← harg, List.drop_left]
      have hid := replaceURIsF_id baseUrl g q hq
      rw [List.nil_append, harg, replaceURIsF, if_pos hpre]
      dsimp only
      rw [hdrop, takeWhile_no_quote huq, List.drop_left]
      rw [if_pos ⟨hune, by simp⟩]
      rw [drop_succ_append, hid]
      rw [List.nil_append]
  | cons a p' ih =>
    intro f u q hp huq hune hq hf
    match f with
    | g + 1 =>
      rw [List.cons_append, replaceURIsF]
      rw [if_neg (by
        intro hcon
        have hstr := @isPrefixOf_straddle uriAttrPat "URI=".toList (a :: p') (u ++ '"' :: q)
          (by decide) (by decide) (by simp)
          (by rw [List.cons_append]; exact hcon)
        rw [hstr] at hp
        exact Bool.noConfusion hp)]
      have hp' : containsSub uriAttrPat (p' ++ "URI=".toList) = false := by
        rw [List.cons_append, containsSub, Bool.or_eq_false_iff] at hp
        exact hp.2
      rw [ih g u q hp' huq hune hq (by
          simp only [List.length_cons, List.length_append] at hf ⊢
          omega)]
      rw [List.cons_append]

theorem endsWith_ne_nil {pat s : Str} (h : endsWith pat s = true) (hpat : pat ≠ []) :
    s ≠ [] := by
  intro hcon
  subst hcon
  unfold endsWith at h
  rcases List.isSuffixOf_iff_suffix.mp h with ⟨t, ht⟩
  rcases List.append_eq_nil.mp ht with ⟨_, h2⟩
  exact hpat h2

/-- **C9, counterexample.** The raw line with `URI="sub_.vtt"` (no `http`,
base `/stream/v1`): the derived language (basename with the `sub_` prefix
stripped) is empty, so the code falls back to `URI="{base}/subtitles/sub_.vtt"`
— a raw caption URI, not a sub-manifest URI of the claimed
`{base}/subtitles/{language}.m3u8` form (it does not even end in `.m3u8"`). -/
theorem processM3U8_vtt_counterexample :
    processM3U8Line "/stream/v1".toList "v1".toList
        "#EXT-X-MEDIA:TYPE=SUBTITLES,GROUP-ID=\"subs\",NAME=\"X\",LANGUAGE=\"x\",URI=\"sub_.vtt\"".toList
      = "#EXT-X-MEDIA:TYPE=SUBTITLES,GROUP-ID=\"subs\",NAME=\"X\",LANGUAGE=\"x\",URI=\"/stream/v1/subtitles/sub_.vtt\"".toList ∧
    processM3U8Line "/stream/v1".toList "v1".toList
        "#EXT-X-MEDIA:TYPE=SUBTITLES,GROUP-ID=\"subs\",NAME=\"X\",LANGUAGE=\"x\",URI=\"sub_.vtt\"".toList
      ≠ "#EXT-X-MEDIA:TYPE=SUBTITLES,GROUP-ID=\"subs\",NAME=\"X\",LANGUAGE=\"x\",URI=\"/stream/v1/subtitles/.m3u8\"".toList ∧
    endsWith ".m3u8\"".toList
        (processM3U8Line "/stream/v1".toList "v1".toList
          "#EXT-X-MEDIA:TYPE=SUBTITLES,GROUP-ID=\"subs\",NAME=\"X\",LANGUAGE=\"x\",URI=\"sub_.vtt\"".toList)
      = false := by
  refine ⟨by decide, by decide, by decide⟩

/-- **C9, amended.** For a `#`-tag line of the shape
`p ++ URI="u" ++ q` whose text contains neither `http` nor the request base,
where the first `URI="` occurrence is the displayed one and `u` is a bare
relative `.vtt` resource whose derived language (basename, `sub_` prefix
stripped) is nonempty, the rewrite pass replaces exactly that URI by the
computed sub-manifest URI `{base}/subtitles/{language}.m3u8`. -/
theorem processM3U8_vtt_rewrite (baseUrl videoId p u q : Str)
    (hhash : startsWith "#".toList p = true)
    (hhttp : containsSub "http".toList (p ++ (uriAttrPat ++ (u ++ '"' :: q))) = false)
    (hbase : containsSub baseUrl (p ++ (uriAttrPat ++ (u ++ '"' :: q))) = false)
    (hp : containsSub uriAttrPat (p ++ "URI=".toList) = false)
    (hq : containsSub uriAttrPat q = false)
    (huq : '"' ∉ u)
    (hvtt : endsWith ".vtt".toList u = true)
    (hslash : startsWith "/".toList u = false)
    (hlang : (if startsWith "sub_".toList (basenameVtt u) then (basenameVtt u).drop 4
              else basenameVtt u) ≠ []) :
    processM3U8Line baseUrl videoId (p ++ (uriAttrPat ++ (u ++ '"' :: q)))
      = p ++ ("URI=\"".toList ++ baseUrl ++ "/subtitles/".toList ++
          (if startsWith "sub_".toList (basenameVtt u) then (basenameVtt u).drop 4
           else basenameVtt u) ++ ".m3u8\"".toList ++ q) := by
  have hune : u ≠ [] := endsWith_ne_nil hvtt (by decide)
  have hhead : ∃ p', p = '#' :: p' := by
    cases p with
    | nil => exact absurd hhash (by decide)
    | cons a p' =>
      unfold startsWith at hhash
      rw [show ("#".toList : Str) = ['#'] from rfl] at hhash
      simp only [List.isPrefixOf, Bool.and_eq_true] at hhash
      rcases hhash with ⟨h1, _⟩
      rw [beq_iff_eq] at h1
      exact ⟨p', by rw [h1]⟩
  have hrel : isRelPlaylistLine (p ++ (uriAttrPat ++ (u ++ '"' :: q))) = false := by
    rcases hhead with ⟨p', rfl⟩
    rw [List.cons_append, isRelPlaylistLine]
    simp
  have hcl : containsSub localhostPat (p ++ (uriAttrPat ++ (u ++ '"' :: q))) = false := by
    rw [← Bool.not_eq_true]
    intro hcon
    have hh : containsSub "http".toList (p ++ (uriAttrPat ++ (u ++ '"' :: q))) = true := by
      rw [containsSub_infix_iff] at hcon ⊢
      have hpref : ("http".toList : Str) <+: localhostPat :=
        ⟨"://localhost:3000/example-output/".toList, rfl⟩
      exact hpref.isInfix.trans hcon
    rw [hh] at hhttp
    exact Bool.noConfusion hhttp
  have hcu : containsSub uriAttrPat (p ++ (uriAttrPat ++ (u ++ '"' :: q))) = true := by
    rw [containsSub_infix_iff]
    refine ⟨p, u ++ '"' :: q, ?_⟩
    simp
  have hnohttp_u : startsWith "http".toList u = false := by
    rw [← Bool.not_eq_true]
    intro hcon
    have hinf : ("http".toList : Str) <:+: (p ++ (uriAttrPat ++ (u ++ '"' :: q))) := by
      refine List.IsInfix.trans (List.isPrefixOf_iff_prefix.mp hcon).isInfix ?_
      refine ⟨p ++ uriAttrPat, '"' :: q, ?_⟩
      simp
    rw [← containsSub_infix_iff] at hinf
    rw [hinf] at hhttp
    exact Bool.noConfusion hhttp
  have hscan := replaceURIsF_scan baseUrl p (p ++ (uriAttrPat ++ (u ++ '"' :: q))).length
    u q hp huq hune hq le_rfl
  have hrepl : uriReplacement baseUrl u
      = "URI=\"".toList ++ baseUrl ++ "/subtitles/".toList ++
        (if startsWith "sub_".toList (basenameVtt u) then (basenameVtt u).drop 4
         else basenameVtt u) ++ ".m3u8\"".toList := by
    have h1 : ¬ startsWith "http".toList u = true := by rw [hnohttp_u]; simp
    have h2 : ¬ startsWith "/".toList u = true := by rw [hslash]; simp
    unfold uriReplacement
    rw [if_pos ⟨h1, h2⟩]
    rw [if_pos hvtt]
    rw [if_pos hlang]
  simp only [processM3U8Line, replaceURIs, hcl, hcu, hrel, hhttp, hbase, hscan, hrepl,
    Bool.false_eq_true, if_false, not_false_iff, and_true, true_and, if_true,
    false_and, and_false, Bool.true_eq_false]

/-- Witness for `processM3U8_vtt_rewrite` at a concrete subtitle line. -/
theorem processM3U8_vtt_rewrite_witness :
    processM3U8Line "/stream/v1".toList "v1".toList
        ("#EXT-X-MEDIA:TYPE=SUBTITLES,LANGUAGE=\"es\",".toList ++
          (uriAttrPat ++ ("sub_es.vtt".toList ++ '"' :: ([] : Str))))
      = "#EXT-X-MEDIA:TYPE=SUBTITLES,LANGUAGE=\"es\",".toList ++
        ("URI=\"".toList ++ "/stream/v1".toList ++ "/subtitles/".toList ++
          (if startsWith "sub_".toList (basenameVtt "sub_es.vtt".toList)
             then (basenameVtt "sub_es.vtt".toList).drop 4
             else basenameVtt "sub_es.vtt".toList) ++ ".m3u8\"".toList ++ ([] : Str)) :=
  processM3U8_vtt_rewrite "/stream/v1".toList "v1".toList
    "#EXT-X-MEDIA:TYPE=SUBTITLES,LANGUAGE=\"es\",".toList "sub_es.vtt".toList []
    (by decide) (by decide) (by decide) (by decide) (by decide) (by decide)
    (by decide) (by decide) (by decide)

/-! ## C8 — attach-media: splice after the version line, substring-based marking -/

theorem splitAtVersion_append (pre : List Str) (v : Str) (post : List Str)
    (hpre : ∀ l ∈ pre, isVersionLine l = false) (hv : isVersionLine v = true) :
    splitAtVersion (pre ++ v :: post) = some (pre, v, post) := by
  induction pre with
  | nil => simp [splitAtVersion, hv]
  | cons a t ih =>
    have ha : isVersionLine a = false := hpre a (by simp)
    rw [List.cons_append, splitAtVersion]
    rw [if_neg (by rw [ha]; exact Bool.noConfusion)]
    rw [ih (fun l hl => hpre l (by simp [hl]))]

theorem isStreamInf_of_version {v : Str} (hv : isVersionLine v = true) :
    isStreamInf v = false := by
  rw [isVersionLine] at hv
  rw [startsWith_decompose hv]
  rfl

theorem isStreamInf_audioMediaLine (t : AudioTrack) :
    isStreamInf (audioMediaLine t) = false := rfl

theorem isStreamInf_subsMediaLine (t : SubtitleTrack) :
    isStreamInf (subsMediaLine t) = false := rfl

theorem markAudioLine_of_not_streamInf {l : Str} (h : isStreamInf l = false) :
    markAudioLine l = l := by
  rw [markAudioLine, if_neg (fun hcon => by rw [h] at hcon; exact Bool.noConfusion hcon.1)]

theorem markSubsLine_of_not_streamInf {l : Str} (h : isStreamInf l = false) :
    markSubsLine l = l := by
  rw [markSubsLine, if_neg (fun hcon => by rw [h] at hcon; exact Bool.noConfusion hcon.1)]

theorem attachAudioLines_decomp (tracks : List AudioTrack) (pre post : List Str) (v : Str)
    (hpre : ∀ l ∈ pre, isVersionLine l = false) (hv : isVersionLine v = true) :
    attachAudioLines tracks (pre ++ v :: post)
      = pre.map markAudioLine ++
          v :: (tracks.map audioMediaLine ++ post.map markAudioLine) := by
  rw [attachAudioLines, splitAtVersion_append pre v post hpre hv]
  dsimp only
  rw [List.map_append, List.map_cons, List.map_append,
    markAudioLine_of_not_streamInf (isStreamInf_of_version hv), List.map_map]
  simp only [Function.comp_def]
  rw [List.map_congr_left
    (fun t _ => markAudioLine_of_not_streamInf (isStreamInf_audioMediaLine t))]

theorem attachSubsLines_decomp (tracks : List SubtitleTrack) (pre post : List Str) (v : Str)
    (hpre : ∀ l ∈ pre, isVersionLine l = false) (hv : isVersionLine v = true) :
    attachSubsLines tracks (pre ++ v :: post)
      = pre.map markSubsLine ++
          v :: (tracks.map subsMediaLine ++ post.map markSubsLine) := by
  rw [attachSubsLines, splitAtVersion_append pre v post hpre hv]
  dsimp only
  rw [List.map_append, List.map_cons, List.map_append,
    markSubsLine_of_not_streamInf (isStreamInf_of_version hv), List.map_map]
  simp only [Function.comp_def]
  rw [List.map_congr_left
    (fun t _ => markSubsLine_of_not_streamInf (isStreamInf_subsMediaLine t))]

/-- **C8, counterexample.** Attaching one audio track to
`[#EXT-X-VERSION:3, #EXT-X-STREAM-INF:…,VIDEO="AUDIO2", v.m3u8]` splices the
media line after the version line but leaves the variant line unchanged even
though it carries **no** `AUDIO="…"` group reference: the code tests for the
substring `AUDIO` anywhere in the line (here inside `VIDEO="AUDIO2"`), not for
a group reference of the declaration's role, contradicting the claim. -/
theorem attach_marking_counterexample :
    attachAudioLines [c8Track] [c8V, c8S, c5Uri]
      = [c8V, audioMediaLine c8Track, c8S, c5Uri] ∧
    isStreamInf c8S = true ∧
    containsSub "AUDIO=\"".toList c8S = false ∧
    endsWith ",AUDIO=\"audio\"".toList c8S = false := by
  refine ⟨by decide, by decide, by decide, by decide⟩

/-- **C8, amended.** With a version line present (`v` the first one), the
attach pass returns `markedPre ++ v :: (mediaLines ++ markedPost)`: the media
lines of the given tracks are spliced immediately after the version line in
the given order (and are themselves never marked), while every other line is
passed through the marking step; the marking step appends `,AUDIO="audio"`
(resp. `,SUBTITLES="subs"`) to a `#EXT-X-STREAM-INF` line **iff** the line
does not contain the substring `AUDIO` (resp. `SUBTITLES`) anywhere — not
iff it lacks a group reference — and leaves every other line unchanged. -/
theorem attach_media_amended (atracks : List AudioTrack) (stracks : List SubtitleTrack)
    (pre post : List Str) (v : Str)
    (hpre : ∀ l ∈ pre, isVersionLine l = false)
    (hv : isVersionLine v = true) :
    attachAudioLines atracks (pre ++ v :: post)
      = pre.map markAudioLine ++ v :: (atracks.map audioMediaLine ++ post.map markAudioLine) ∧
    attachSubsLines stracks (pre ++ v :: post)
      = pre.map markSubsLine ++ v :: (stracks.map subsMediaLine ++ post.map markSubsLine) ∧
    (∀ l, isStreamInf l = true → containsSub "AUDIO".toList l = false →
       markAudioLine l = l ++ ",AUDIO=\"audio\"".toList) ∧
    (∀ l, isStreamInf l = false ∨ containsSub "AUDIO".toList l = true →
       markAudioLine l = l) ∧
    (∀ l, isStreamInf l = true → containsSub "SUBTITLES".toList l = false →
       markSubsLine l = l ++ ",SUBTITLES=\"subs\"".toList) ∧
    (∀ l, isStreamInf l = false ∨ containsSub "SUBTITLES".toList l = true →
       markSubsLine l = l) := by
  refine ⟨?_, ?_, ?_, ?_, ?_, ?_⟩
  · exact attachAudioLines_decomp atracks pre post v hpre hv
  · exact attachSubsLines_decomp stracks pre post v hpre hv
  · intro l h1 h2
    rw [markAudioLine, if_pos ⟨h1, h2⟩]
  · intro l h
    rw [markAudioLine, if_neg]
    rintro ⟨h1, h2⟩
    rcases h with h | h
    · rw [h1] at h
      exact Bool.noConfusion h
    · rw [h] at h2
      exact Bool.noConfusion h2
  · intro l h1 h2
    rw [markSubsLine, if_pos ⟨h1, h2⟩]
  · intro l h
    rw [markSubsLine, if_neg]
    rintro ⟨h1, h2⟩
    rcases h with h | h
    · rw [h1] at h
      exact Bool.noConfusion h
    · rw [h] at h2
      exact Bool.noConfusion h2

/-! ## The optimizer loop: dedup keys, well-formedness, preservation -/

theorem head_ne_hash {c : Char} {t : Str} (h : startsHash (c :: t) = false) :
    ('#' == c) = false := by
  rw [startsHash, startsWith] at h
  rw [show ("#".toList : Str) = ['#'] from rfl] at h
  simp only [List.isPrefixOf, Bool.and_true] at h
  exact h

theorem not_hash_not_audio {l : Str} (h : startsHash l = false) :
    isAudioMedia l = false := by
  cases l with
  | nil => rfl
  | cons c t =>
    have hc := head_ne_hash h
    rw [isAudioMedia, startsWith]
    rw [show ("#EXT-X-MEDIA:TYPE=AUDIO".toList : Str)
      = '#' :: "EXT-X-MEDIA:TYPE=AUDIO".toList from rfl]
    rw [List.isPrefixOf, hc, Bool.false_and]

theorem not_hash_not_subs {l : Str} (h : startsHash l = false) :
    isSubsMedia l = false := by
  cases l with
  | nil => rfl
  | cons c t =>
    have hc := head_ne_hash h
    rw [isSubsMedia, startsWith]
    rw [show ("#EXT-X-MEDIA:TYPE=SUBTITLES".toList : Str)
      = '#' :: "EXT-X-MEDIA:TYPE=SUBTITLES".toList from rfl]
    rw [List.isPrefixOf, hc, Bool.false_and]

theorem audio_not_stream {l : Str} (h : isAudioMedia l = true) :
    isStreamInf l = false := by
  rw [isAudioMedia] at h
  rw [startsWith_decompose h]
  rfl

theorem audio_not_subs {l : Str} (h : isAudioMedia l = true) :
    isSubsMedia l = false := by
  rw [isAudioMedia] at h
  rw [startsWith_decompose h]
  rfl

theorem stream_not_audio {l : Str} (h : isStreamInf l = true) :
    isAudioMedia l = false := by
  rw [isStreamInf] at h
  rw [startsWith_decompose h]
  rfl

theorem stream_not_subs {l : Str} (h : isStreamInf l = true) :
    isSubsMedia l = false := by
  rw [isStreamInf] at h
  rw [startsWith_decompose h]
  rfl

theorem wfStream_singleton {l : Str} (hwf : wfStream [l] = true) :
    isStreamInf l = false := by
  rw [wfStream] at hwf
  rw [← Bool.not_eq_true]
  intro hcon
  rw [hcon] at hwf
  exact Bool.noConfusion hwf

theorem wfStream_cons_of_not_stream {l l2 : Str} {ls : List Str}
    (h : isStreamInf l = false) (hwf : wfStream (l :: l2 :: ls) = true) :
    wfStream (l2 :: ls) = true := by
  rw [wfStream, if_neg (by rw [h]; exact Bool.noConfusion)] at hwf
  exact hwf

theorem wfStream_cons_of_stream {l l2 : Str} {ls : List Str}
    (h : isStreamInf l = true) (hwf : wfStream (l :: l2 :: ls) = true) :
    (l2 ≠ [] ∧ startsHash l2 = false) ∧ wfStream ls = true := by
  rw [wfStream, if_pos h, Bool.and_eq_true, Bool.and_eq_true] at hwf
  refine ⟨⟨?_, ?_⟩, hwf.2⟩
  · have := hwf.1.1
    simpa using this
  · have := hwf.1.2
    simpa using this

theorem wfStream_cons_not_stream_intro {l : Str} {out : List Str}
    (h : isStreamInf l = false) (hout : wfStream out = true) :
    wfStream (l :: out) = true := by
  cases out with
  | nil =>
    rw [wfStream, h]
    rfl
  | cons o os =>
    rw [wfStream, if_neg (by rw [h]; exact Bool.noConfusion)]
    exact hout

theorem wfStream_cons_cons_stream_intro {l l2 : Str} {out : List Str}
    (h : isStreamInf l = true) (h2 : l2 ≠ [] ∧ startsHash l2 = false)
    (hout : wfStream out = true) :
    wfStream (l :: l2 :: out) = true := by
  rw [wfStream, if_pos h, Bool.and_eq_true, Bool.and_eq_true]
  refine ⟨⟨by simpa using h2.1, by simpa using h2.2⟩, hout⟩

theorem ddWith_spec : ∀ (ks seen : List Str),
    (ddWith seen ks).Nodup ∧ ∀ k ∈ ddWith seen ks, k ∉ seen := by
  intro ks
  induction ks with
  | nil =>
    intro seen
    exact ⟨List.nodup_nil, by simp [ddWith]⟩
  | cons k ks ih =>
    intro seen
    by_cases hk : k ∈ seen
    · rw [ddWith, if_pos hk]
      exact ih seen
    · rw [ddWith, if_neg hk]
      refine ⟨List.nodup_cons.mpr ⟨?_, (ih (k :: seen)).1⟩, ?_⟩
      · intro hmem
        exact (ih (k :: seen)).2 k hmem (by simp)
      · intro x hx
        rcases List.mem_cons.mp hx with rfl | hx2
        · exact hk
        · intro hxs
          exact (ih (k :: seen)).2 x hx2 (List.mem_cons_of_mem k hxs)

theorem pairKeys_cons_not_stream {l : Str} {L : List Str}
    (h : isStreamInf l = false) : pairKeys (l :: L) = pairKeys L := by
  cases L with
  | nil =>
    show (if isStreamInf l = true then [pairKey l []] else []) = pairKeys []
    rw [if_neg (by rw [h]; exact Bool.noConfusion)]
    rfl
  | cons l2 ls =>
    show (if isStreamInf l = true then pairKey l l2 :: pairKeys ls else pairKeys (l2 :: ls))
      = pairKeys (l2 :: ls)
    rw [if_neg (by rw [h]; exact Bool.noConfusion)]

theorem audioKeys_cons_some {l : Str} {L : List Str} {k : Str}
    (h1 : isAudioMedia l = true) (h2 : keyOf l = some k) :
    audioKeys (l :: L) = k :: audioKeys L := by
  rw [audioKeys, audioKeys, List.filterMap_cons, if_pos h1, h2]

theorem audioKeys_cons_not_audio {l : Str} {L : List Str}
    (h : isAudioMedia l = false) : audioKeys (l :: L) = audioKeys L := by
  rw [audioKeys, audioKeys, List.filterMap_cons, if_neg (by rw [h]; exact Bool.noConfusion)]

theorem audioKeys_cons_none {l : Str} {L : List Str}
    (h : keyOf l = none) : audioKeys (l :: L) = audioKeys L := by
  rw [audioKeys, audioKeys, List.filterMap_cons]
  by_cases ha : isAudioMedia l = true
  · rw [if_pos ha, h]
  · rw [if_neg ha]

theorem optLoop_nil (sa ss : List Str) : optLoop sa ss [] = [] := rfl

theorem optLoop_audio_drop {sa ss : List Str} {l : Str} {L : List Str} {k : Str}
    (ha : isAudioMedia l = true) (hk : keyOf l = some k) (hmem : k ∈ sa) :
    optLoop sa ss (l :: L) = optLoop sa ss L := by
  cases L with
  | nil =>
    show optLoop sa ss [l] = ([] : List Str)
    rw [optLoop, if_pos ha]
    simp only [hk]
    rw [if_pos hmem]
  | cons l2 ls =>
    rw [optLoop, if_pos ha]
    simp only [hk]
    rw [if_pos hmem]

theorem optLoop_audio_keep {sa ss : List Str} {l : Str} {L : List Str} {k : Str}
    (ha : isAudioMedia l = true) (hk : keyOf l = some k) (hmem : k ∉ sa) :
    optLoop sa ss (l :: L) = l :: optLoop (k :: sa) ss L := by
  cases L with
  | nil =>
    show optLoop sa ss [l] = [l]
    rw [optLoop, if_pos ha]
    simp only [hk]
    rw [if_neg hmem]
  | cons l2 ls =>
    rw [optLoop, if_pos ha]
    simp only [hk]
    rw [if_neg hmem]

theorem optLoop_audio_none {sa ss : List Str} {l : Str} {L : List Str}
    (ha : isAudioMedia l = true) (hk : keyOf l = none) :
    optLoop sa ss (l :: L) = l :: optLoop sa ss L := by
  cases L with
  | nil =>
    show optLoop sa ss [l] = [l]
    rw [optLoop, if_pos ha]
    simp only [hk]
  | cons l2 ls =>
    rw [optLoop, if_pos ha]
    simp only [hk]

theorem optLoop_other {sa ss : List Str} {l : Str} {L : List Str}
    (ha : isAudioMedia l = false) (hs : isStreamInf l = false) :
    optLoop sa ss (l :: L) = l :: optLoop sa ss L := by
  have ha' : ¬ isAudioMedia l = true := by rw [ha]; exact Bool.noConfusion
  have hs' : ¬ isStreamInf l = true := by rw [hs]; exact Bool.noConfusion
  cases L with
  | nil =>
    show optLoop sa ss [l] = [l]
    rw [optLoop, if_neg ha', if_neg hs']
  | cons l2 ls =>
    rw [optLoop, if_neg ha', if_neg hs']

theorem optLoop_stream_singleton_seen {sa ss : List Str} {l : Str}
    (ha : isAudioMedia l = false) (hs : isStreamInf l = true)
    (hmem : pairKey l [] ∈ ss) :
    optLoop sa ss [l] = [] := by
  have ha' : ¬ isAudioMedia l = true := by rw [ha]; exact Bool.noConfusion
  rw [optLoop, if_neg ha', if_pos hs, if_pos hmem]

theorem optLoop_stream_singleton_new {sa ss : List Str} {l : Str}
    (ha : isAudioMedia l = false) (hs : isStreamInf l = true)
    (hmem : pairKey l [] ∉ ss) :
    optLoop sa ss [l] = [l] := by
  have ha' : ¬ isAudioMedia l = true := by rw [ha]; exact Bool.noConfusion
  rw [optLoop, if_neg ha', if_pos hs, if_neg hmem]

theorem optLoop_stream_seen_consume {sa ss : List Str} {l l2 : Str} {ls : List Str}
    (ha : isAudioMedia l = false) (hs : isStreamInf l = true)
    (hmem : pairKey l l2 ∈ ss) (h2 : l2 ≠ [] ∧ startsHash l2 = false) :
    optLoop sa ss (l :: l2 :: ls) = optLoop sa ss ls := by
  have ha' : ¬ isAudioMedia l = true := by rw [ha]; exact Bool.noConfusion
  rw [optLoop, if_neg ha', if_pos hs, if_pos hmem, if_pos h2]

theorem optLoop_stream_seen_pass {sa ss : List Str} {l l2 : Str} {ls : List Str}
    (ha : isAudioMedia l = false) (hs : isStreamInf l = true)
    (hmem : pairKey l l2 ∈ ss) (h2 : ¬ (l2 ≠ [] ∧ startsHash l2 = false)) :
    optLoop sa ss (l :: l2 :: ls) = optLoop sa ss (l2 :: ls) := by
  have ha' : ¬ isAudioMedia l = true := by rw [ha]; exact Bool.noConfusion
  rw [optLoop, if_neg ha', if_pos hs, if_pos hmem, if_neg h2]

theorem optLoop_stream_new_consume {sa ss : List Str} {l l2 : Str} {ls : List Str}
    (ha : isAudioMedia l = false) (hs : isStreamInf l = true)
    (hmem : pairKey l l2 ∉ ss) (h2 : l2 ≠ [] ∧ startsHash l2 = false) :
    optLoop sa ss (l :: l2 :: ls) = l :: l2 :: optLoop sa (pairKey l l2 :: ss) ls := by
  have ha' : ¬ isAudioMedia l = true := by rw [ha]; exact Bool.noConfusion
  rw [optLoop, if_neg ha', if_pos hs, if_neg hmem, if_pos h2]

theorem optLoop_stream_new_pass {sa ss : List Str} {l l2 : Str} {ls : List Str}
    (ha : isAudioMedia l = false) (hs : isStreamInf l = true)
    (hmem : pairKey l l2 ∉ ss) (h2 : ¬ (l2 ≠ [] ∧ startsHash l2 = false)) :
    optLoop sa ss (l :: l2 :: ls) = l :: optLoop sa (pairKey l l2 :: ss) (l2 :: ls) := by
  have ha' : ¬ isAudioMedia l = true := by rw [ha]; exact Bool.noConfusion
  rw [optLoop, if_neg ha', if_pos hs, if_neg hmem, if_neg h2]

theorem audioKeyLines_cons_match {k l : Str} {L : List Str}
    (h1 : isAudioMedia l = true) (h2 : keyOf l = some k) :
    audioKeyLines k (l :: L) = l :: audioKeyLines k L := by
  rw [audioKeyLines, audioKeyLines, List.filter_cons, if_pos (by simp [h1, h2])]

theorem audioKeyLines_cons_skip {k l : Str} {L : List Str}
    (h : isAudioMedia l = false ∨ keyOf l ≠ some k) :
    audioKeyLines k (l :: L) = audioKeyLines k L := by
  rw [audioKeyLines, audioKeyLines, List.filter_cons, if_neg]
  rcases h with h | h
  · simp [h]
  · simp [h]

/-- The heart of the corrected C2 for audio: among the `TYPE=AUDIO` media
lines with dedup key `k`, the optimizer keeps exactly the first one not
already seen, and none at all if `k` is already in the seen set. -/
theorem audioKeyLines_optLoop : ∀ (sa ss L : List Str) (k : Str),
    audioKeyLines k (optLoop sa ss L)
      = if k ∈ sa then [] else (audioKeyLines k L).take 1 := by
  intro sa ss L
  induction sa, ss, L using optLoop.induct with
  | case1 sa ss =>
    intro k
    simp [optLoop_nil, audioKeyLines]
  | case2 sa ss l ha k' hk' hmem =>
    intro k
    rw [show ([l] : List Str) = l :: [] from rfl, optLoop_audio_drop ha hk' hmem, optLoop_nil]
    by_cases hks : k ∈ sa
    · simp [audioKeyLines, hks]
    · have hkk : k ≠ k' := fun hcon => hks (hcon ▸ hmem)
      rw [if_neg hks, audioKeyLines_cons_skip (Or.inr (by rw [hk']; simp [Ne.symm hkk]))]
      simp [audioKeyLines]
  | case3 sa ss l ha k' hk' hmem =>
    intro k
    rw [show ([l] : List Str) = l :: [] from rfl, optLoop_audio_keep ha hk' hmem, optLoop_nil]
    by_cases hkk : k = k'
    · subst hkk
      rw [if_neg hmem, audioKeyLines_cons_match ha hk']
      simp [audioKeyLines]
    · rw [audioKeyLines_cons_skip (Or.inr (by rw [hk']; simp [Ne.symm hkk]))]
      simp [audioKeyLines]
  | case4 sa ss l ha hk' =>
    intro k
    rw [show ([l] : List Str) = l :: [] from rfl, optLoop_audio_none ha hk', optLoop_nil]
    rw [audioKeyLines_cons_skip (Or.inr (by rw [hk']; simp))]
    simp [audioKeyLines]
  | case5 sa ss l ha hs hmem =>
    intro k
    rw [optLoop_stream_singleton_seen (by simpa using ha) hs hmem]
    rw [show ([l] : List Str) = l :: [] from rfl,
      audioKeyLines_cons_skip (Or.inl (by simpa using ha))]
    simp [audioKeyLines]
  | case6 sa ss l ha hs hmem =>
    intro k
    rw [optLoop_stream_singleton_new (by simpa using ha) hs hmem]
    rw [show ([l] : List Str) = l :: [] from rfl,
      audioKeyLines_cons_skip (Or.inl (by simpa using ha))]
    simp [audioKeyLines]
  | case7 sa ss l ha hs =>
    intro k
    rw [show ([l] : List Str) = l :: [] from rfl,
      optLoop_other (by simpa using ha) (by simpa using hs), optLoop_nil]
    rw [audioKeyLines_cons_skip (Or.inl (by simpa using ha))]
    simp [audioKeyLines]
  | case8 sa ss l l2 ls ha k' hk' hmem ih =>
    intro k
    rw [optLoop_audio_drop ha hk' hmem]
    by_cases hks : k ∈ sa
    · rw [ih k]
      simp [hks]
    · have hkk : k ≠ k' := fun hcon => hks (hcon ▸ hmem)
      rw [audioKeyLines_cons_skip (Or.inr (by rw [hk']; simp [Ne.symm hkk])), ih k]
  | case9 sa ss l l2 ls ha k' hk' hmem ih =>
    intro k
    rw [optLoop_audio_keep ha hk' hmem]
    by_cases hkk : k = k'
    · subst hkk
      rw [audioKeyLines_cons_match ha hk', audioKeyLines_cons_match ha hk',
        ih k, if_pos (by simp), if_neg hmem]
      simp
    · rw [audioKeyLines_cons_skip (Or.inr (by rw [hk']; simp [Ne.symm hkk])),
        audioKeyLines_cons_skip (Or.inr (by rw [hk']; simp [Ne.symm hkk])), ih k]
      by_cases hks : k ∈ sa
      · rw [if_pos (List.mem_cons_of_mem k' hks), if_pos hks]
      · rw [if_neg (by simp [hkk, hks]), if_neg hks]
  | case10 sa ss l l2 ls ha hk' ih =>
    intro k
    rw [optLoop_audio_none ha hk',
      audioKeyLines_cons_skip (Or.inr (by rw [hk']; simp)),
      audioKeyLines_cons_skip (Or.inr (by rw [hk']; simp)), ih k]
  | case11 sa ss l l2 ls ha hs hmem h2 ih =>
    intro k
    rw [optLoop_stream_seen_consume (by simpa using ha) hs hmem h2,
      audioKeyLines_cons_skip (Or.inl (by simpa using ha)),
      audioKeyLines_cons_skip (Or.inl (not_hash_not_audio h2.2)), ih k]
  | case12 sa ss l l2 ls ha hs hmem h2 ih =>
    intro k
    rw [optLoop_stream_seen_pass (by simpa using ha) hs hmem h2,
      audioKeyLines_cons_skip (Or.inl (by simpa using ha)), ih k]
  | case13 sa ss l l2 ls ha hs hmem h2 ih =>
    intro k
    rw [optLoop_stream_new_consume (by simpa using ha) hs hmem h2,
      audioKeyLines_cons_skip (Or.inl (by simpa using ha)),
      audioKeyLines_cons_skip (Or.inl (not_hash_not_audio h2.2)),
      audioKeyLines_cons_skip (Or.inl (by simpa using ha)),
      audioKeyLines_cons_skip (Or.inl (not_hash_not_audio h2.2)), ih k]
  | case14 sa ss l l2 ls ha hs hmem h2 ih =>
    intro k
    rw [optLoop_stream_new_pass (by simpa using ha) hs hmem h2,
      audioKeyLines_cons_skip (Or.inl (by simpa using ha)),
      audioKeyLines_cons_skip (Or.inl (by simpa using ha)), ih k]
  | case15 sa ss l l2 ls ha hs ih =>
    intro k
    rw [optLoop_other (by simpa using ha) (by simpa using hs),
      audioKeyLines_cons_skip (Or.inl (by simpa using ha)),
      audioKeyLines_cons_skip (Or.inl (by simpa using ha)), ih k]

theorem count_cons_ne {s l : Str} {L : List Str} (h : l ≠ s) :
    (l :: L).count s = L.count s := by
  rw [List.count_cons]
  have hb : (l == s) = false := beq_eq_false_iff_ne.mpr h
  rw [hb]
  simp

theorem pairKeys_cons_stream {l l2 : Str} {ls : List Str} (h : isStreamInf l = true) :
    pairKeys (l :: l2 :: ls) = pairKey l l2 :: pairKeys ls := by
  show (if isStreamInf l = true then pairKey l l2 :: pairKeys ls else pairKeys (l2 :: ls))
    = pairKey l l2 :: pairKeys ls
  rw [if_pos h]

/-- Subtitle media lines are never touched by the optimizer loop: their
multiplicity is preserved exactly (the corrected form of "audio and
subtitles alike" — subtitles are *not* deduplicated). -/
theorem count_subs_optLoop : ∀ (sa ss L : List Str) (s : Str), isSubsMedia s = true →
    (optLoop sa ss L).count s = L.count s := by
  intro sa ss L
  induction sa, ss, L using optLoop.induct with
  | case1 sa ss =>
    intro s _
    rw [optLoop_nil]
  | case2 sa ss l ha k hk hmem =>
    intro s hsubs
    have hls : l ≠ s := by
      intro hcon
      have hx := audio_not_subs ha
      rw [hcon, hsubs] at hx
      exact Bool.noConfusion hx
    rw [show ([l] : List Str) = l :: [] from rfl, optLoop_audio_drop ha hk hmem, optLoop_nil,
      count_cons_ne hls]
  | case3 sa ss l ha k hk hmem =>
    intro s _
    rw [show ([l] : List Str) = l :: [] from rfl, optLoop_audio_keep ha hk hmem, optLoop_nil]
  | case4 sa ss l ha hk =>
    intro s _
    rw [show ([l] : List Str) = l :: [] from rfl, optLoop_audio_none ha hk, optLoop_nil]
  | case5 sa ss l ha hs hmem =>
    intro s hsubs
    have hls : l ≠ s := by
      intro hcon
      have hx := stream_not_subs hs
      rw [hcon, hsubs] at hx
      exact Bool.noConfusion hx
    rw [optLoop_stream_singleton_seen (by simpa using ha) hs hmem,
      show ([l] : List Str) = l :: [] from rfl, count_cons_ne hls]
  | case6 sa ss l ha hs hmem =>
    intro s _
    rw [optLoop_stream_singleton_new (by simpa using ha) hs hmem]
  | case7 sa ss l ha hs =>
    intro s _
    rw [show ([l] : List Str) = l :: [] from rfl,
      optLoop_other (by simpa using ha) (by simpa using hs), optLoop_nil]
  | case8 sa ss l l2 ls ha k hk hmem ih =>
    intro s hsubs
    have hls : l ≠ s := by
      intro hcon
      have hx := audio_not_subs ha
      rw [hcon, hsubs] at hx
      exact Bool.noConfusion hx
    rw [optLoop_audio_drop ha hk hmem, ih s hsubs, count_cons_ne hls]
  | case9 sa ss l l2 ls ha k hk hmem ih =>
    intro s hsubs
    rw [optLoop_audio_keep ha hk hmem, List.count_cons, List.count_cons, ih s hsubs]
  | case10 sa ss l l2 ls ha hk ih =>
    intro s hsubs
    rw [optLoop_audio_none ha hk, List.count_cons, List.count_cons, ih s hsubs]
  | case11 sa ss l l2 ls ha hs hmem h2 ih =>
    intro s hsubs
    have hls : l ≠ s := by
      intro hcon
      have hx := stream_not_subs hs
      rw [hcon, hsubs] at hx
      exact Bool.noConfusion hx
    have hl2s : l2 ≠ s := by
      intro hcon
      have hx := not_hash_not_subs h2.2
      rw [hcon, hsubs] at hx
      exact Bool.noConfusion hx
    rw [optLoop_stream_seen_consume (by simpa using ha) hs hmem h2, ih s hsubs,
      count_cons_ne hls, count_cons_ne hl2s]
  | case12 sa ss l l2 ls ha hs hmem h2 ih =>
    intro s hsubs
    have hls : l ≠ s := by
      intro hcon
      have hx := stream_not_subs hs
      rw [hcon, hsubs] at hx
      exact Bool.noConfusion hx
    rw [optLoop_stream_seen_pass (by simpa using ha) hs hmem h2, ih s hsubs,
      count_cons_ne hls]
  | case13 sa ss l l2 ls ha hs hmem h2 ih =>
    intro s hsubs
    rw [optLoop_stream_new_consume (by simpa using ha) hs hmem h2,
      List.count_cons, List.count_cons, List.count_cons, List.count_cons, ih s hsubs]
  | case14 sa ss l l2 ls ha hs hmem h2 ih =>
    intro s hsubs
    rw [optLoop_stream_new_pass (by simpa using ha) hs hmem h2,
      List.count_cons, List.count_cons, ih s hsubs]
  | case15 sa ss l l2 ls ha hs ih =>
    intro s hsubs
    rw [optLoop_other (by simpa using ha) (by simpa using hs),
      List.count_cons, List.count_cons, ih s hsubs]

/-- The audio dedup keys surviving the optimizer loop are exactly the
first-occurrence dedup of the input's audio keys against the seen set. -/
theorem audioKeys_optLoop : ∀ (sa ss L : List Str),
    audioKeys (optLoop sa ss L) = ddWith sa (audioKeys L) := by
  intro sa ss L
  induction sa, ss, L using optLoop.induct with
  | case1 sa ss =>
    rw [optLoop_nil]
    rfl
  | case2 sa ss l ha k hk hmem =>
    rw [show ([l] : List Str) = l :: [] from rfl, optLoop_audio_drop ha hk hmem, optLoop_nil,
      audioKeys_cons_some ha hk]
    show audioKeys [] = ddWith sa (k :: audioKeys [])
    rw [show audioKeys ([] : List Str) = [] from rfl, ddWith, if_pos hmem]
    rfl
  | case3 sa ss l ha k hk hmem =>
    rw [show ([l] : List Str) = l :: [] from rfl, optLoop_audio_keep ha hk hmem, optLoop_nil,
      audioKeys_cons_some ha hk]
    rw [show audioKeys ([] : List Str) = [] from rfl, ddWith, if_neg hmem]
    rfl
  | case4 sa ss l ha hk =>
    rw [show ([l] : List Str) = l :: [] from rfl, optLoop_audio_none ha hk, optLoop_nil,
      audioKeys_cons_none hk]
    rfl
  | case5 sa ss l ha hs hmem =>
    rw [optLoop_stream_singleton_seen (by simpa using ha) hs hmem,
      show ([l] : List Str) = l :: [] from rfl, audioKeys_cons_not_audio (by simpa using ha)]
    rfl
  | case6 sa ss l ha hs hmem =>
    rw [optLoop_stream_singleton_new (by simpa using ha) hs hmem,
      show ([l] : List Str) = l :: [] from rfl, audioKeys_cons_not_audio (by simpa using ha)]
    rfl
  | case7 sa ss l ha hs =>
    rw [show ([l] : List Str) = l :: [] from rfl,
      optLoop_other (by simpa using ha) (by simpa using hs), optLoop_nil,
      audioKeys_cons_not_audio (by simpa using ha)]
    rfl
  | case8 sa ss l l2 ls ha k hk hmem ih =>
    rw [optLoop_audio_drop ha hk hmem, ih, audioKeys_cons_some ha hk, ddWith, if_pos hmem]
  | case9 sa ss l l2 ls ha k hk hmem ih =>
    rw [optLoop_audio_keep ha hk hmem, audioKeys_cons_some ha hk, audioKeys_cons_some ha hk,
      ih, ddWith, if_neg hmem]
  | case10 sa ss l l2 ls ha hk ih =>
    rw [optLoop_audio_none ha hk, audioKeys_cons_none hk, audioKeys_cons_none hk, ih]
  | case11 sa ss l l2 ls ha hs hmem h2 ih =>
    have hl : isAudioMedia l = false := by simpa using ha
    rw [optLoop_stream_seen_consume hl hs hmem h2, ih,
      audioKeys_cons_not_audio hl,
      audioKeys_cons_not_audio (not_hash_not_audio h2.2)]
  | case12 sa ss l l2 ls ha hs hmem h2 ih =>
    have hl : isAudioMedia l = false := by simpa using ha
    rw [optLoop_stream_seen_pass hl hs hmem h2, ih,
      audioKeys_cons_not_audio hl]
  | case13 sa ss l l2 ls ha hs hmem h2 ih =>
    have hl : isAudioMedia l = false := by simpa using ha
    rw [optLoop_stream_new_consume hl hs hmem h2,
      audioKeys_cons_not_audio hl,
      audioKeys_cons_not_audio (not_hash_not_audio h2.2),
      audioKeys_cons_not_audio hl,
      audioKeys_cons_not_audio (not_hash_not_audio h2.2), ih]
  | case14 sa ss l l2 ls ha hs hmem h2 ih =>
    have hl : isAudioMedia l = false := by simpa using ha
    rw [optLoop_stream_new_pass hl hs hmem h2,
      audioKeys_cons_not_audio hl,
      audioKeys_cons_not_audio hl, ih]
  | case15 sa ss l l2 ls ha hs ih =>
    have hl : isAudioMedia l = false := by simpa using ha
    rw [optLoop_other hl (by simpa using hs),
      audioKeys_cons_not_audio hl,
      audioKeys_cons_not_audio hl, ih]

/-- On well-formed manifests the surviving variant-pair dedup keys are exactly
the first-occurrence dedup of the input's pair keys against the seen set. -/
theorem pairKeys_optLoop : ∀ (sa ss L : List Str), wfStream L = true →
    pairKeys (optLoop sa ss L) = ddWith ss (pairKeys L) := by
  intro sa ss L
  induction sa, ss, L using optLoop.induct with
  | case1 sa ss =>
    intro _
    rw [optLoop_nil]
    rfl
  | case2 sa ss l ha k hk hmem =>
    intro _
    rw [show ([l] : List Str) = l :: [] from rfl, optLoop_audio_drop ha hk hmem, optLoop_nil,
      pairKeys_cons_not_stream (audio_not_stream ha)]
    rfl
  | case3 sa ss l ha k hk hmem =>
    intro _
    rw [show ([l] : List Str) = l :: [] from rfl, optLoop_audio_keep ha hk hmem, optLoop_nil,
      pairKeys_cons_not_stream (audio_not_stream ha)]
    rfl
  | case4 sa ss l ha hk =>
    intro _
    rw [show ([l] : List Str) = l :: [] from rfl, optLoop_audio_none ha hk, optLoop_nil,
      pairKeys_cons_not_stream (audio_not_stream ha)]
    rfl
  | case5 sa ss l ha hs hmem =>
    intro hwf
    rw [wfStream_singleton hwf] at hs
    exact Bool.noConfusion hs
  | case6 sa ss l ha hs hmem =>
    intro hwf
    rw [wfStream_singleton hwf] at hs
    exact Bool.noConfusion hs
  | case7 sa ss l ha hs =>
    intro _
    rw [show ([l] : List Str) = l :: [] from rfl,
      optLoop_other (by simpa using ha) (by simpa using hs), optLoop_nil,
      pairKeys_cons_not_stream (by simpa using hs)]
    rfl
  | case8 sa ss l l2 ls ha k hk hmem ih =>
    intro hwf
    rw [optLoop_audio_drop ha hk hmem,
      ih (wfStream_cons_of_not_stream (audio_not_stream ha) hwf),
      pairKeys_cons_not_stream (audio_not_stream ha)]
  | case9 sa ss l l2 ls ha k hk hmem ih =>
    intro hwf
    rw [optLoop_audio_keep ha hk hmem,
      pairKeys_cons_not_stream (audio_not_stream ha),
      pairKeys_cons_not_stream (audio_not_stream ha),
      ih (wfStream_cons_of_not_stream (audio_not_stream ha) hwf)]
  | case10 sa ss l l2 ls ha hk ih =>
    intro hwf
    rw [optLoop_audio_none ha hk,
      pairKeys_cons_not_stream (audio_not_stream ha),
      pairKeys_cons_not_stream (audio_not_stream ha),
      ih (wfStream_cons_of_not_stream (audio_not_stream ha) hwf)]
  | case11 sa ss l l2 ls ha hs hmem h2 ih =>
    intro hwf
    rw [optLoop_stream_seen_consume (by simpa using ha) hs hmem h2,
      ih (wfStream_cons_of_stream hs hwf).2,
      pairKeys_cons_stream hs, ddWith, if_pos hmem]
  | case12 sa ss l l2 ls ha hs hmem h2 ih =>
    intro hwf
    exact absurd (wfStream_cons_of_stream hs hwf).1 h2
  | case13 sa ss l l2 ls ha hs hmem h2 ih =>
    intro hwf
    rw [optLoop_stream_new_consume (by simpa using ha) hs hmem h2,
      pairKeys_cons_stream hs, pairKeys_cons_stream hs,
      ih (wfStream_cons_of_stream hs hwf).2, ddWith, if_neg hmem]
  | case14 sa ss l l2 ls ha hs hmem h2 ih =>
    intro hwf
    exact absurd (wfStream_cons_of_stream hs hwf).1 h2
  | case15 sa ss l l2 ls ha hs ih =>
    intro hwf
    rw [optLoop_other (by simpa using ha) (by simpa using hs),
      pairKeys_cons_not_stream (by simpa using hs),
      pairKeys_cons_not_stream (by simpa using hs),
      ih (wfStream_cons_of_not_stream (by simpa using hs) hwf)]

/-- Every line the optimizer emits comes from the input, in order. -/
theorem optLoop_sublist : ∀ (sa ss L : List Str), List.Sublist (optLoop sa ss L) L := by
  intro sa ss L
  induction sa, ss, L using optLoop.induct with
  | case1 sa ss =>
    rw [optLoop_nil]
  | case2 sa ss l ha k hk hmem =>
    rw [optLoop_audio_drop ha hk hmem, optLoop_nil]
    exact List.nil_sublist _
  | case3 sa ss l ha k hk hmem =>
    rw [optLoop_audio_keep ha hk hmem, optLoop_nil]
  | case4 sa ss l ha hk =>
    rw [optLoop_audio_none ha hk, optLoop_nil]
  | case5 sa ss l ha hs hmem =>
    rw [optLoop_stream_singleton_seen (by simpa using ha) hs hmem]
    exact List.nil_sublist _
  | case6 sa ss l ha hs hmem =>
    rw [optLoop_stream_singleton_new (by simpa using ha) hs hmem]
  | case7 sa ss l ha hs =>
    rw [optLoop_other (by simpa using ha) (by simpa using hs), optLoop_nil]
  | case8 sa ss l l2 ls ha k hk hmem ih =>
    rw [optLoop_audio_drop ha hk hmem]
    exact ih.trans (List.sublist_cons_self l (l2 :: ls))
  | case9 sa ss l l2 ls ha k hk hmem ih =>
    rw [optLoop_audio_keep ha hk hmem]
    exact List.Sublist.cons₂ l ih
  | case10 sa ss l l2 ls ha hk ih =>
    rw [optLoop_audio_none ha hk]
    exact List.Sublist.cons₂ l ih
  | case11 sa ss l l2 ls ha hs hmem h2 ih =>
    rw [optLoop_stream_seen_consume (by simpa using ha) hs hmem h2]
    exact ih.trans ((List.sublist_cons_self l2 ls).trans (List.sublist_cons_self l (l2 :: ls)))
  | case12 sa ss l l2 ls ha hs hmem h2 ih =>
    rw [optLoop_stream_seen_pass (by simpa using ha) hs hmem h2]
    exact ih.trans (List.sublist_cons_self l (l2 :: ls))
  | case13 sa ss l l2 ls ha hs hmem h2 ih =>
    rw [optLoop_stream_new_consume (by simpa using ha) hs hmem h2]
    exact List.Sublist.cons₂ l (List.Sublist.cons₂ l2 ih)
  | case14 sa ss l l2 ls ha hs hmem h2 ih =>
    rw [optLoop_stream_new_pass (by simpa using ha) hs hmem h2]
    exact List.Sublist.cons₂ l ih
  | case15 sa ss l l2 ls ha hs ih =>
    rw [optLoop_other (by simpa using ha) (by simpa using hs)]
    exact List.Sublist.cons₂ l ih

/-- The optimizer preserves well-formedness of the variant structure. -/
theorem wfStream_optLoop : ∀ (sa ss L : List Str), wfStream L = true →
    wfStream (optLoop sa ss L) = true := by
  intro sa ss L
  induction sa, ss, L using optLoop.induct with
  | case1 sa ss =>
    intro _
    rw [optLoop_nil]
    rfl
  | case2 sa ss l ha k hk hmem =>
    intro _
    rw [optLoop_audio_drop ha hk hmem, optLoop_nil]
    rfl
  | case3 sa ss l ha k hk hmem =>
    intro hwf
    rw [optLoop_audio_keep ha hk hmem, optLoop_nil]
    exact hwf
  | case4 sa ss l ha hk =>
    intro hwf
    rw [optLoop_audio_none ha hk, optLoop_nil]
    exact hwf
  | case5 sa ss l ha hs hmem =>
    intro _
    rw [optLoop_stream_singleton_seen (by simpa using ha) hs hmem]
    rfl
  | case6 sa ss l ha hs hmem =>
    intro hwf
    rw [optLoop_stream_singleton_new (by simpa using ha) hs hmem]
    exact hwf
  | case7 sa ss l ha hs =>
    intro hwf
    rw [optLoop_other (by simpa using ha) (by simpa using hs), optLoop_nil]
    exact hwf
  | case8 sa ss l l2 ls ha k hk hmem ih =>
    intro hwf
    rw [optLoop_audio_drop ha hk hmem]
    exact ih (wfStream_cons_of_not_stream (audio_not_stream ha) hwf)
  | case9 sa ss l l2 ls ha k hk hmem ih =>
    intro hwf
    rw [optLoop_audio_keep ha hk hmem]
    exact wfStream_cons_not_stream_intro (audio_not_stream ha)
      (ih (wfStream_cons_of_not_stream (audio_not_stream ha) hwf))
  | case10 sa ss l l2 ls ha hk ih =>
    intro hwf
    rw [optLoop_audio_none ha hk]
    exact wfStream_cons_not_stream_intro (audio_not_stream ha)
      (ih (wfStream_cons_of_not_stream (audio_not_stream ha) hwf))
  | case11 sa ss l l2 ls ha hs hmem h2 ih =>
    intro hwf
    rw [optLoop_stream_seen_consume (by simpa using ha) hs hmem h2]
    exact ih (wfStream_cons_of_stream hs hwf).2
  | case12 sa ss l l2 ls ha hs hmem h2 ih =>
    intro hwf
    exact absurd (wfStream_cons_of_stream hs hwf).1 h2
  | case13 sa ss l l2 ls ha hs hmem h2 ih =>
    intro hwf
    rw [optLoop_stream_new_consume (by simpa using ha) hs hmem h2]
    exact wfStream_cons_cons_stream_intro hs h2 (ih (wfStream_cons_of_stream hs hwf).2)
  | case14 sa ss l l2 ls ha hs hmem h2 ih =>
    intro hwf
    exact absurd (wfStream_cons_of_stream hs hwf).1 h2
  | case15 sa ss l l2 ls ha hs ih =>
    intro hwf
    have hs' : isStreamInf l = false := by simpa using hs
    rw [optLoop_other (by simpa using ha) hs']
    exact wfStream_cons_not_stream_intro hs' (ih (wfStream_cons_of_not_stream hs' hwf))

/-- A well-formed line list whose dedup keys are duplicate-free and disjoint
from the seen sets passes through the optimizer loop unchanged. -/
theorem optLoop_eq_self : ∀ (sa ss L : List Str), wfStream L = true →
    (audioKeys L).Nodup → (pairKeys L).Nodup →
    (∀ k ∈ audioKeys L, k ∉ sa) → (∀ p ∈ pairKeys L, p ∉ ss) →
    optLoop sa ss L = L := by
  intro sa ss L
  induction sa, ss, L using optLoop.induct with
  | case1 sa ss =>
    intro _ _ _ _ _
    rw [optLoop_nil]
  | case2 sa ss l ha k hk hmem =>
    intro _ _ _ haud _
    exact absurd hmem (haud k (by rw [audioKeys_cons_some ha hk]; simp))
  | case3 sa ss l ha k hk hmem =>
    intro _ _ _ _ _
    rw [show ([l] : List Str) = l :: [] from rfl, optLoop_audio_keep ha hk hmem, optLoop_nil]
  | case4 sa ss l ha hk =>
    intro _ _ _ _ _
    rw [show ([l] : List Str) = l :: [] from rfl, optLoop_audio_none ha hk, optLoop_nil]
  | case5 sa ss l ha hs hmem =>
    intro hwf _ _ _ _
    rw [wfStream_singleton hwf] at hs
    exact Bool.noConfusion hs
  | case6 sa ss l ha hs hmem =>
    intro _ _ _ _ _
    rw [optLoop_stream_singleton_new (by simpa using ha) hs hmem]
  | case7 sa ss l ha hs =>
    intro _ _ _ _ _
    rw [show ([l] : List Str) = l :: [] from rfl,
      optLoop_other (by simpa using ha) (by simpa using hs), optLoop_nil]
  | case8 sa ss l l2 ls ha k hk hmem ih =>
    intro _ _ _ haud _
    exact absurd hmem (haud k (by rw [audioKeys_cons_some ha hk]; simp))
  | case9 sa ss l l2 ls ha k hk hmem ih =>
    intro hwf hA hP haud hpair
    rw [audioKeys_cons_some ha hk] at hA haud
    rw [pairKeys_cons_not_stream (audio_not_stream ha)] at hP hpair
    rw [optLoop_audio_keep ha hk hmem,
      ih (wfStream_cons_of_not_stream (audio_not_stream ha) hwf)
        (List.nodup_cons.mp hA).2 hP
        (fun k' hk' => by
          intro hcon
          rcases List.mem_cons.mp hcon with rfl | hcon2
          · exact (List.nodup_cons.mp hA).1 hk'
          · exact haud k' (List.mem_cons_of_mem k hk') hcon2)
        hpair]
  | case10 sa ss l l2 ls ha hk ih =>
    intro hwf hA hP haud hpair
    rw [audioKeys_cons_none hk] at hA haud
    rw [pairKeys_cons_not_stream (audio_not_stream ha)] at hP hpair
    rw [optLoop_audio_none ha hk,
      ih (wfStream_cons_of_not_stream (audio_not_stream ha) hwf) hA hP haud hpair]
  | case11 sa ss l l2 ls ha hs hmem h2 ih =>
    intro _ _ _ _ hpair
    exact absurd hmem (hpair (pairKey l l2) (by rw [pairKeys_cons_stream hs]; simp))
  | case12 sa ss l l2 ls ha hs hmem h2 ih =>
    intro hwf _ _ _ _
    exact absurd (wfStream_cons_of_stream hs hwf).1 h2
  | case13 sa ss l l2 ls ha hs hmem h2 ih =>
    intro hwf hA hP haud hpair
    have hl : isAudioMedia l = false := by simpa using ha
    rw [audioKeys_cons_not_audio hl, audioKeys_cons_not_audio (not_hash_not_audio h2.2)]
      at hA haud
    rw [pairKeys_cons_stream hs] at hP hpair
    rw [optLoop_stream_new_consume hl hs hmem h2,
      ih (wfStream_cons_of_stream hs hwf).2 hA (List.nodup_cons.mp hP).2 haud
        (fun p' hp' => by
          intro hcon
          rcases List.mem_cons.mp hcon with rfl | hcon2
          · exact (List.nodup_cons.mp hP).1 hp'
          · exact hpair p' (List.mem_cons_of_mem _ hp') hcon2)]
  | case14 sa ss l l2 ls ha hs hmem h2 ih =>
    intro hwf _ _ _ _
    exact absurd (wfStream_cons_of_stream hs hwf).1 h2
  | case15 sa ss l l2 ls ha hs ih =>
    intro hwf hA hP haud hpair
    have hl : isAudioMedia l = false := by simpa using ha
    have hs' : isStreamInf l = false := by simpa using hs
    rw [audioKeys_cons_not_audio hl] at hA haud
    rw [pairKeys_cons_not_stream hs'] at hP hpair
    rw [optLoop_other hl hs',
      ih (wfStream_cons_of_not_stream hs' hwf) hA hP haud hpair]

/-- The optimizer never drops the first line when the seen sets start empty. -/
theorem optimizeLines_ne_nil : ∀ (L : List Str), L ≠ [] → optimizeLines L ≠ [] := by
  intro L hL
  cases L with
  | nil => exact absurd rfl hL
  | cons l L' =>
    rw [optimizeLines]
    by_cases ha : isAudioMedia l = true
    · cases hk : keyOf l with
      | some k =>
        rw [optLoop_audio_keep ha hk (List.not_mem_nil k)]
        simp
      | none =>
        rw [optLoop_audio_none ha hk]
        simp
    · have hl : isAudioMedia l = false := by simpa using ha
      by_cases hst : isStreamInf l = true
      · cases L' with
        | nil =>
          rw [optLoop_stream_singleton_new hl hst (List.not_mem_nil _)]
          simp
        | cons l2 ls =>
          by_cases h2 : l2 ≠ [] ∧ startsHash l2 = false
          · rw [optLoop_stream_new_consume hl hst (List.not_mem_nil _) h2]
            simp
          · rw [optLoop_stream_new_pass hl hst (List.not_mem_nil _) h2]
            simp
      · rw [optLoop_other hl (by simpa using hst)]
        simp

theorem splitOnCharAux_ne_nil (sep : Char) : ∀ (s cur : Str),
    splitOnCharAux sep cur s ≠ [] := by
  intro s
  induction s with
  | nil =>
    intro cur
    simp [splitOnCharAux]
  | cons c t ih =>
    intro cur
    rw [splitOnCharAux]
    by_cases hc : c = sep
    · rw [if_pos hc]
      simp
    · rw [if_neg hc]
      exact ih _

theorem splitLines_ne_nil (s : Str) : splitLines s ≠ [] :=
  splitOnCharAux_ne_nil '\n' s []

/-- **C2, counterexample.** A manifest made of the same subtitle media
declaration twice (with a perfectly well-defined `(language, uri)` key,
`es_s.m3u8`) passes the optimizer completely unchanged: the dedup loop only
treats lines starting with `#EXT-X-MEDIA:TYPE=AUDIO`, so subtitle
declarations are **not** deduplicated, contradicting "for audio and subtitle
declarations alike". -/
theorem optimize_subs_dup_counterexample :
    optimizeMasterPlaylist c2Content = c2Content ∧
    splitLines c2Content = [c2Subs, c2Subs] ∧
    isSubsMedia c2Subs = true ∧
    keyOf c2Subs = some "es_s.m3u8".toList := by
  exact ⟨by decide, by decide, by decide, by decide⟩

/-- **C2, amended.** The optimizer deduplicates only the audio media lines:
for every key `k`, exactly the first `TYPE=AUDIO` line with key `k` survives
(`take 1`); on well-formed manifests the variant-pair keys are deduplicated to
their duplicate-free first occurrences; but subtitle media lines are passed
through with their multiplicity untouched. -/
theorem optimize_dedup_amended (M : Str) :
    (∀ k, audioKeyLines k (optimizeLines (splitLines M))
        = (audioKeyLines k (splitLines M)).take 1) ∧
    (wfStream (splitLines M) = true →
       pairKeys (optimizeLines (splitLines M)) = ddWith [] (pairKeys (splitLines M)) ∧
       (pairKeys (optimizeLines (splitLines M))).Nodup) ∧
    (∀ s, isSubsMedia s = true →
       (optimizeLines (splitLines M)).count s = (splitLines M).count s) ∧
    (audioKeys (optimizeLines (splitLines M))).Nodup ∧
    optimizeMasterPlaylist M = joinLines (optimizeLines (splitLines M)) := by
  refine ⟨?_, ?_, ?_, ?_, rfl⟩
  · intro k
    rw [optimizeLines, audioKeyLines_optLoop]
    simp
  · intro hwf
    rw [optimizeLines, pairKeys_optLoop [] [] _ hwf]
    exact ⟨rfl, (ddWith_spec _ _).1⟩
  · intro s hs
    rw [optimizeLines, count_subs_optLoop [] [] _ s hs]
  · rw [optimizeLines, audioKeys_optLoop]
    exact (ddWith_spec _ _).1

set_option maxRecDepth 10000 in
/-- Witness for `optimize_dedup_amended` on a concrete well-formed manifest. -/
theorem optimize_dedup_amended_witness :
    pairKeys (optimizeLines (splitLines c5WfContent))
      = ddWith [] (pairKeys (splitLines c5WfContent)) ∧
    (optimizeLines (splitLines c5WfContent)).count c2Subs
      = (splitLines c5WfContent).count c2Subs :=
  ⟨((optimize_dedup_amended c5WfContent).2.1 (by decide)).1,
   (optimize_dedup_amended c5WfContent).2.2.1 c2Subs (by decide)⟩

set_option maxRecDepth 10000 in
/-- **C5, counterexample.** On the manifest whose duplicate audio media line
sits between a variant line and its URI line, the first optimizer pass
re-aligns the variant pairs (the duplicate media line is dropped), so the
second pass then detects the duplicated variant pair the first pass missed:
`optimize(optimize(M)) ≠ optimize(M)`. -/
theorem optimize_not_idempotent :
    optimizeMasterPlaylist (optimizeMasterPlaylist c5Content)
      ≠ optimizeMasterPlaylist c5Content := by
  decide

/-- **C5, amended.** On well-formed manifests — every `#EXT-X-STREAM-INF`
line immediately followed by its nonempty non-`#` URI line — the optimizer is
idempotent: the surviving keys are duplicate-free, so a second pass changes
nothing. -/
theorem optimize_idempotent_amended (M : Str) (hwf : wfStream (splitLines M) = true) :
    optimizeMasterPlaylist (optimizeMasterPlaylist M) = optimizeMasterPlaylist M := by
  have hne : optimizeLines (splitLines M) ≠ [] :=
    optimizeLines_ne_nil _ (splitLines_ne_nil M)
  have hnl : ∀ l ∈ optimizeLines (splitLines M), '\n' ∉ l := by
    intro l hl
    exact no_nl_of_mem_splitLines M l ((optLoop_sublist [] [] _).subset hl)
  have hsplit : splitLines (optimizeMasterPlaylist M) = optimizeLines (splitLines M) := by
    rw [optimizeMasterPlaylist, splitLines_joinLines _ hne hnl]
  have heq : optimizeLines (optimizeLines (splitLines M)) = optimizeLines (splitLines M) := by
    rw [show optimizeLines (optimizeLines (splitLines M))
        = optLoop [] [] (optimizeLines (splitLines M)) from rfl]
    refine optLoop_eq_self [] [] _ ?_ ?_ ?_ ?_ ?_
    · exact wfStream_optLoop [] [] _ hwf
    · rw [show optimizeLines (splitLines M) = optLoop [] [] (splitLines M) from rfl,
        audioKeys_optLoop]
      exact (ddWith_spec _ _).1
    · rw [show optimizeLines (splitLines M) = optLoop [] [] (splitLines M) from rfl,
        pairKeys_optLoop [] [] _ hwf]
      exact (ddWith_spec _ _).1
    · exact fun k _ => List.not_mem_nil k
    · exact fun p _ => List.not_mem_nil p
  rw [show optimizeMasterPlaylist (optimizeMasterPlaylist M)
      = joinLines (optimizeLines (splitLines (optimizeMasterPlaylist M))) from rfl,
    hsplit, heq]
  rfl

set_option maxRecDepth 10000 in
/-- Witness for `optimize_idempotent_amended` on a concrete manifest. -/
theorem optimize_idempotent_amended_witness :
    wfStream (splitLines c5WfContent) = true ∧
    optimizeMasterPlaylist (optimizeMasterPlaylist c5WfContent)
      = optimizeMasterPlaylist c5WfContent :=
  ⟨by decide, optimize_idempotent_amended c5WfContent (by decide)⟩

theorem mediaFold_cons_drop {sa : List Str} {l : Str} {A : List Str} {k : Str}
    (hk : keyOf l = some k) (hmem : k ∈ sa) :
    mediaFold sa (l :: A) = mediaFold sa A := by
  rw [mediaFold]
  simp only [hk]
  rw [if_pos hmem]

theorem mediaFold_cons_keep {sa : List Str} {l : Str} {A : List Str} {k : Str}
    (hk : keyOf l = some k) (hmem : k ∉ sa) :
    mediaFold sa (l :: A)
      = (l :: (mediaFold (k :: sa) A).1, (mediaFold (k :: sa) A).2) := by
  rw [mediaFold]
  simp only [hk]
  rw [if_neg hmem]

theorem mediaFold_cons_none {sa : List Str} {l : Str} {A : List Str}
    (hk : keyOf l = none) :
    mediaFold sa (l :: A) = (l :: (mediaFold sa A).1, (mediaFold sa A).2) := by
  rw [mediaFold]
  simp only [hk]

/-- A block of audio media lines is processed by the loop independently of
the stream seen-set: it contributes its deduplicated lines and extends the
audio seen-set, after which the loop continues on the remainder. -/
theorem optLoop_mediaBlock : ∀ (A sa ss Z : List Str),
    (∀ l ∈ A, isAudioMedia l = true) →
    optLoop sa ss (A ++ Z) = (mediaFold sa A).1 ++ optLoop (mediaFold sa A).2 ss Z := by
  intro A
  induction A with
  | nil =>
    intro sa ss Z _
    rw [List.nil_append]
    rfl
  | cons l A' ih =>
    intro sa ss Z hA
    have hl : isAudioMedia l = true := hA l (by simp)
    have hA' : ∀ x ∈ A', isAudioMedia x = true := fun x hx => hA x (by simp [hx])
    rw [List.cons_append]
    cases hk : keyOf l with
    | some k =>
      by_cases hmem : k ∈ sa
      · rw [optLoop_audio_drop hl hk hmem, ih sa ss Z hA', mediaFold_cons_drop hk hmem]
      · rw [optLoop_audio_keep hl hk hmem, ih (k :: sa) ss Z hA',
          mediaFold_cons_keep hk hmem]
        rw [List.cons_append]
    | none =>
      rw [optLoop_audio_none hl hk, ih sa ss Z hA', mediaFold_cons_none hk]
      rw [List.cons_append]

theorem mediaFold_seen_mono : ∀ (A sa : List Str) (k : Str), k ∈ sa →
    k ∈ (mediaFold sa A).2 := by
  intro A
  induction A with
  | nil =>
    intro sa k hk
    exact hk
  | cons l A' ih =>
    intro sa k hk
    cases hkl : keyOf l with
    | some k' =>
      by_cases hmem : k' ∈ sa
      · rw [mediaFold_cons_drop hkl hmem]
        exact ih sa k hk
      · rw [mediaFold_cons_keep hkl hmem]
        exact ih (k' :: sa) k (List.mem_cons_of_mem k' hk)
    | none =>
      rw [mediaFold_cons_none hkl]
      exact ih sa k hk

theorem mediaFold_keys_seen : ∀ (A sa : List Str), ∀ l ∈ A, ∀ k, keyOf l = some k →
    k ∈ (mediaFold sa A).2 := by
  intro A
  induction A with
  | nil =>
    intro sa l hl
    exact absurd hl (List.not_mem_nil l)
  | cons l' A' ih =>
    intro sa l hl k hk
    rcases List.mem_cons.mp hl with rfl | hl2
    · by_cases hmem : k ∈ sa
      · rw [mediaFold_cons_drop hk hmem]
        exact mediaFold_seen_mono A' sa k hmem
      · rw [mediaFold_cons_keep hk hmem]
        exact mediaFold_seen_mono A' (k :: sa) k (by simp)
    · cases hkl : keyOf l' with
      | some k' =>
        by_cases hmem : k' ∈ sa
        · rw [mediaFold_cons_drop hkl hmem]
          exact ih sa l hl2 k hk
        · rw [mediaFold_cons_keep hkl hmem]
          exact ih (k' :: sa) l hl2 k hk
      | none =>
        rw [mediaFold_cons_none hkl]
        exact ih sa l hl2 k hk

theorem mediaFold_all_seen : ∀ (A sa : List Str),
    (∀ l ∈ A, ∃ k, keyOf l = some k ∧ k ∈ sa) → mediaFold sa A = ([], sa) := by
  intro A
  induction A with
  | nil =>
    intro sa _
    rfl
  | cons l A' ih =>
    intro sa hA
    obtain ⟨k, hk, hmem⟩ := hA l (by simp)
    rw [mediaFold_cons_drop hk hmem]
    exact ih sa (fun x hx => hA x (by simp [hx]))

/-- Processing a keyed audio block twice in a row is the same as processing
it once: on the second encounter every key is already seen. -/
theorem optLoop_dup_block (A : List Str)
    (hA : ∀ l ∈ A, isAudioMedia l = true ∧ ∃ k, keyOf l = some k) :
    ∀ (sa ss Z : List Str), optLoop sa ss (A ++ (A ++ Z)) = optLoop sa ss (A ++ Z) := by
  intro sa ss Z
  have haud : ∀ l ∈ A, isAudioMedia l = true := fun l hl => (hA l hl).1
  rw [optLoop_mediaBlock A sa ss (A ++ Z) haud,
    optLoop_mediaBlock A sa ss Z haud,
    optLoop_mediaBlock A ((mediaFold sa A).2) ss Z haud,
    mediaFold_all_seen A ((mediaFold sa A).2) (fun l hl => by
      obtain ⟨k, hk⟩ := (hA l hl).2
      exact ⟨k, hk, mediaFold_keys_seen A sa l hl k hk⟩)]
  rw [List.nil_append]

/-- Grafting congruence: two lists with a common prefix and continuations
that are optimizer-equivalent (with any seen-sets), share the same head, and
whose head starts with `#`, optimize identically. -/
theorem optLoop_graft (Y1 Y2 : List Str)
    (hhead : Y1.head? = Y2.head?)
    (hhash : ∀ h, Y1.head? = some h → startsHash h = true)
    (hcont : ∀ sa ss, optLoop sa ss Y1 = optLoop sa ss Y2) :
    ∀ (n : Nat) (X sa ss : List Str), X.length ≤ n →
      optLoop sa ss (X ++ Y1) = optLoop sa ss (X ++ Y2) := by
  intro n
  induction n with
  | zero =>
    intro X sa ss hl
    have hX : X = [] := List.eq_nil_of_length_eq_zero (Nat.le_zero.mp hl)
    subst hX
    exact hcont sa ss
  | succ n ih =>
    intro X sa ss hl
    match X with
    | [] => exact hcont sa ss
    | [x] =>
      show optLoop sa ss (x :: Y1) = optLoop sa ss (x :: Y2)
      by_cases hax : isAudioMedia x = true
      · cases hkx : keyOf x with
        | some k =>
          by_cases hmem : k ∈ sa
          · rw [optLoop_audio_drop hax hkx hmem, optLoop_audio_drop hax hkx hmem]
            exact hcont sa ss
          · rw [optLoop_audio_keep hax hkx hmem, optLoop_audio_keep hax hkx hmem,
              hcont (k :: sa) ss]
        | none =>
          rw [optLoop_audio_none hax hkx, optLoop_audio_none hax hkx, hcont sa ss]
      · have hax' : isAudioMedia x = false := by simpa using hax
        by_cases hsx : isStreamInf x = true
        · cases hY1 : Y1 with
          | nil =>
            have hY2 : Y2 = [] := by
              rw [hY1] at hhead
              cases Y2 with
              | nil => rfl
              | cons b bs => simp at hhead
            rw [hY2]
          | cons y ys1 =>
            obtain ⟨ys2, hY2⟩ : ∃ ys2, Y2 = y :: ys2 := by
              rw [hY1] at hhead
              cases Y2 with
              | nil => simp at hhead
              | cons b bs =>
                simp at hhead
                exact ⟨bs, by rw [hhead]⟩
            have hy : startsHash y = true := hhash y (by rw [hY1]; rfl)
            have hnc : ¬ (y ≠ [] ∧ startsHash y = false) := by
              rintro ⟨_, hfalse⟩
              rw [hy] at hfalse
              exact Bool.noConfusion hfalse
            rw [hY2]
            by_cases hpmem : pairKey x y ∈ ss
            · rw [optLoop_stream_seen_pass hax' hsx hpmem hnc,
                optLoop_stream_seen_pass hax' hsx hpmem hnc, ← hY1, ← hY2]
              exact hcont sa ss
            · rw [optLoop_stream_new_pass hax' hsx hpmem hnc,
                optLoop_stream_new_pass hax' hsx hpmem hnc, ← hY1, ← hY2,
                hcont sa (pairKey x y :: ss)]
        · rw [optLoop_other hax' (by simpa using hsx),
            optLoop_other hax' (by simpa using hsx), hcont sa ss]
    | x1 :: x2 :: xs =>
      have hlen : (x2 :: xs).length ≤ n := by
        simp only [List.length_cons] at hl ⊢
        omega
      have hlen2 : xs.length ≤ n := by
        simp only [List.length_cons] at hl
        omega
      show optLoop sa ss (x1 :: x2 :: (xs ++ Y1)) = optLoop sa ss (x1 :: x2 :: (xs ++ Y2))
      by_cases hax : isAudioMedia x1 = true
      · cases hkx : keyOf x1 with
        | some k =>
          by_cases hmem : k ∈ sa
          · rw [optLoop_audio_drop hax hkx hmem, optLoop_audio_drop hax hkx hmem]
            exact ih (x2 :: xs) sa ss hlen
          · rw [optLoop_audio_keep hax hkx hmem, optLoop_audio_keep hax hkx hmem]
            exact congrArg (List.cons x1) (ih (x2 :: xs) (k :: sa) ss hlen)
        | none =>
          rw [optLoop_audio_none hax hkx, optLoop_audio_none hax hkx]
          exact congrArg (List.cons x1) (ih (x2 :: xs) sa ss hlen)
      · have hax' : isAudioMedia x1 = false := by simpa using hax
        by_cases hsx : isStreamInf x1 = true
        · by_cases h2 : x2 ≠ [] ∧ startsHash x2 = false
          · by_cases hpmem : pairKey x1 x2 ∈ ss
            · rw [optLoop_stream_seen_consume hax' hsx hpmem h2,
                optLoop_stream_seen_consume hax' hsx hpmem h2]
              exact ih xs sa ss hlen2
            · rw [optLoop_stream_new_consume hax' hsx hpmem h2,
                optLoop_stream_new_consume hax' hsx hpmem h2,
                ih xs sa (pairKey x1 x2 :: ss) hlen2]
          · by_cases hpmem : pairKey x1 x2 ∈ ss
            · rw [optLoop_stream_seen_pass hax' hsx hpmem h2,
                optLoop_stream_seen_pass hax' hsx hpmem h2]
              exact ih (x2 :: xs) sa ss hlen
            · rw [optLoop_stream_new_pass hax' hsx hpmem h2,
                optLoop_stream_new_pass hax' hsx hpmem h2]
              exact congrArg (List.cons x1) (ih (x2 :: xs) sa (pairKey x1 x2 :: ss) hlen)
        · rw [optLoop_other hax' (by simpa using hsx),
            optLoop_other hax' (by simpa using hsx)]
          exact congrArg (List.cons x1) (ih (x2 :: xs) sa ss hlen)

theorem mem_replAF : ∀ (f : Nat) (s : Str) (c : Char), c ∈ replAF f s → c ∈ s ∨ c ∈ audioPat := by
  intro f s
  induction f, s using replAF.induct with
  | case1 s =>
    intro c hc
    rw [replAF] at hc
    exact Or.inl hc
  | case2 f =>
    intro c hc
    rw [replAF] at hc
    exact Or.inl hc
  | case3 fuel a t hpre ih =>
    intro d hd
    rw [replAF, if_pos hpre] at hd
    rcases List.mem_append.mp hd with hm | hm
    · exact Or.inr hm
    · rcases ih d hm with hm2 | hm2
      · exact Or.inl (List.drop_subset _ _ hm2)
      · exact Or.inr hm2
  | case4 fuel a t hpre ih =>
    intro d hd
    rw [replAF, if_neg hpre] at hd
    rcases List.mem_cons.mp hd with rfl | hm
    · exact Or.inl (List.mem_cons_self _ _)
    · rcases ih d hm with hm2 | hm2
      · exact Or.inl (List.mem_cons_of_mem a hm2)
      · exact Or.inr hm2

theorem mem_stripAF : ∀ (f : Nat) (s : Str) (c : Char), c ∈ stripAF f s → c ∈ s ∨ c ∈ audioPat := by
  intro f
  induction f with
  | zero =>
    intro s c hc
    rw [stripAF] at hc
    exact Or.inl hc
  | succ f ih =>
    intro s c hc
    rw [stripAF] at hc
    by_cases hcon : containsSub audioAudioPat s = true
    · rw [if_pos hcon] at hc
      rcases ih (replA s) c hc with hm | hm
      · rcases mem_replAF _ _ c hm with hm2 | hm2
        · exact Or.inl hm2
        · exact Or.inr hm2
      · exact Or.inr hm
    · rw [if_neg hcon] at hc
      exact Or.inl hc

theorem mem_collapseF : ∀ (f : Nat) (s : Str) (c : Char), c ∈ collapseF f s → c ∈ s := by
  intro f s
  induction f, s using collapseF.induct with
  | case1 s =>
    intro c hc
    rw [collapseF] at hc
    exact hc
  | case2 f =>
    intro c hc
    rw [collapseF] at hc
    exact hc
  | case3 f t ih =>
    intro d hd
    rw [collapseF, if_pos rfl] at hd
    rcases List.mem_cons.mp hd with rfl | hm
    · exact List.mem_cons_self _ _
    · exact List.mem_cons_of_mem _ ((List.dropWhile_sublist _).subset (ih d hm))
  | case4 f a t hsl ih =>
    intro d hd
    rw [collapseF, if_neg hsl] at hd
    rcases List.mem_cons.mp hd with rfl | hm
    · exact List.mem_cons_self _ _
    · exact List.mem_cons_of_mem _ (ih d hm)

theorem mem_normalizeAudioUri : ∀ (u : Str) (c : Char), c ∈ normalizeAudioUri u →
    c ∈ u ∨ c ∈ audioPat := by
  intro u c hc
  rw [normalizeAudioUri] at hc
  by_cases hu : u = []
  · rw [if_pos hu] at hc
    simp at hc
  · rw [if_neg hu] at hc
    dsimp only at hc
    rw [collapseSlashes] at hc
    have hc2 := mem_collapseF _ _ c hc
    by_cases hsw : startsWith audioPat (stripA u) = true
    · rw [if_pos hsw] at hc2
      rw [stripA] at hc2
      exact mem_stripAF _ _ c hc2
    · rw [if_neg hsw] at hc2
      rcases List.mem_append.mp hc2 with hm | hm
      · exact Or.inr hm
      · rw [stripA] at hm
        exact mem_stripAF _ _ c hm

theorem mem_generateAudioUri : ∀ (i : Str) (c : Char), c ∈ generateAudioUri i →
    c ∈ i ∨ c ∈ "audio/.m3u8".toList := by
  have haudio : ∀ x ∈ (audioPat : Str), x ∈ ("audio/.m3u8".toList : Str) := by decide
  have hm35 : ∀ x ∈ (".m3u8".toList : Str), x ∈ ("audio/.m3u8".toList : Str) := by decide
  intro i c hc
  rw [generateAudioUri] at hc
  by_cases hi : i = []
  · rw [if_pos hi] at hc
    simp at hc
  · rw [if_neg hi] at hc
    dsimp only at hc
    rcases List.mem_append.mp hc with hm | hm
    · rcases List.mem_append.mp hm with hm2 | hm2
      · exact Or.inr (haudio c hm2)
      · by_cases hp : audioPat.isPrefixOf i = true
        · rw [if_pos hp] at hm2
          exact Or.inl (List.drop_subset _ _ hm2)
        · rw [if_neg hp] at hm2
          exact Or.inl hm2
    · exact Or.inr (hm35 c hm)

theorem collapseF_ne_nil : ∀ (f : Nat) (s : Str), s ≠ [] → collapseF f s ≠ [] := by
  intro f s hs
  match f, s with
  | 0, s => rw [collapseF]; exact hs
  | f + 1, [] => exact absurd rfl hs
  | f + 1, c :: t =>
    rw [collapseF]
    split
    · simp
    · simp

theorem generateAudioUri_ne_nil {i : Str} (hi : i ≠ []) : generateAudioUri i ≠ [] := by
  rw [generateAudioUri, if_neg hi]
  dsimp only
  simp [audioPat]

theorem normalizeAudioUri_ne_nil {u : Str} (hu : u ≠ []) : normalizeAudioUri u ≠ [] := by
  rw [normalizeAudioUri, if_neg hu]
  dsimp only
  rw [collapseSlashes]
  refine collapseF_ne_nil _ _ ?_
  by_cases hsw : startsWith audioPat (stripA u) = true
  · rw [if_pos hsw]
    intro hcon
    rw [hcon] at hsw
    exact Bool.noConfusion hsw
  · rw [if_neg hsw]
    simp [audioPat]

/-- The validated audio URI of a track with sane fields: nonempty, and
free of quotes and newlines. -/
theorem validatedUri_spec (t : AudioTrack)
    (hq : '"' ∉ t.uri) (hn : '\n' ∉ t.uri) (hqi : '"' ∉ t.id) (hni : '\n' ∉ t.id)
    (hne : t.uri = [] → t.id ≠ []) :
    validatedUri t ≠ [] ∧ '"' ∉ validatedUri t ∧ '\n' ∉ validatedUri t := by
  rw [validatedUri]
  by_cases hu : t.uri = []
  · rw [if_pos hu]
    refine ⟨normalizeAudioUri_ne_nil (generateAudioUri_ne_nil (hne hu)), ?_, ?_⟩
    · intro hmem
      rcases mem_normalizeAudioUri _ _ hmem with hm | hm
      · rcases mem_generateAudioUri _ _ hm with hm2 | hm2
        · exact hqi hm2
        · revert hm2
          decide
      · revert hm
        decide
    · intro hmem
      rcases mem_normalizeAudioUri _ _ hmem with hm | hm
      · rcases mem_generateAudioUri _ _ hm with hm2 | hm2
        · exact hni hm2
        · revert hm2
          decide
      · revert hm
        decide
  · rw [if_neg hu]
    refine ⟨normalizeAudioUri_ne_nil hu, ?_, ?_⟩
    · intro hmem
      rcases mem_normalizeAudioUri _ _ hmem with hm | hm
      · exact hq hm
      · revert hm
        decide
    · intro hmem
      rcases mem_normalizeAudioUri _ _ hmem with hm | hm
      · exact hn hm
      · revert hm
        decide

theorem matchCapture_at_head {p0 : Char} {prest u post : Str} (hu : u ≠ []) (huq : '"' ∉ u) :
    matchCapture (p0 :: prest) ((p0 :: prest) ++ (u ++ '"' :: post)) = some u := by
  rw [show ((p0 :: prest) ++ (u ++ '"' :: post) : Str)
    = p0 :: (prest ++ (u ++ '"' :: post)) from rfl]
  rw [matchCapture]
  rw [if_pos (List.isPrefixOf_iff_prefix.mpr ⟨u ++ '"' :: post, by simp⟩)]
  dsimp only
  have hdrop : (p0 :: (prest ++ (u ++ '"' :: post)) : Str).drop (p0 :: prest).length
      = u ++ '"' :: post := by
    rw [show (p0 :: (prest ++ (u ++ '"' :: post)) : Str)
      = (p0 :: prest) ++ (u ++ '"' :: post) from rfl, List.drop_left]
  rw [hdrop, takeWhile_no_quote huq]
  rw [if_pos ⟨hu, by rw [List.drop_left]; simp⟩]

theorem exists_some_ite {P : Prop} [Decidable P] {X : Str} {y : Option Str}
    (hy : ∃ c, y = some c) : ∃ c, (if P then some X else y) = some c := by
  by_cases h : P
  · exact ⟨X, by rw [if_pos h]⟩
  · rw [if_neg h]
    exact hy

/-- If the literal pattern occurs canonically (followed by a nonempty
quote-free capture and a closing quote), the JS-style first-match scan
captures something. -/
theorem matchCapture_exists : ∀ (pre : Str) (p0 : Char) (prest u post : Str),
    u ≠ [] → '"' ∉ u →
    ∃ c, matchCapture (p0 :: prest) (pre ++ ((p0 :: prest) ++ (u ++ '"' :: post))) = some c := by
  intro pre
  induction pre with
  | nil =>
    intro p0 prest u post hu huq
    rw [List.nil_append]
    exact ⟨u, matchCapture_at_head hu huq⟩
  | cons a pre' ih =>
    intro p0 prest u post hu huq
    rw [List.cons_append, matchCapture]
    by_cases hpre : (p0 :: prest).isPrefixOf
        (a :: (pre' ++ ((p0 :: prest) ++ (u ++ '"' :: post)))) = true
    · rw [if_pos hpre]
      dsimp only
      exact exists_some_ite (ih p0 prest u post hu huq)
    · rw [if_neg hpre]
      exact ih p0 prest u post hu huq

/-- Every generated audio media line carries a dedup key: both the
`LANGUAGE="…"` and `URI="…"` captures succeed. -/
theorem keyOf_audioMediaLine (t : AudioTrack)
    (hlang : t.language ≠ []) (hlq : '"' ∉ t.language)
    (hune : validatedUri t ≠ []) (huq : '"' ∉ validatedUri t) :
    ∃ k, keyOf (audioMediaLine t) = some k := by
  have hdecL : audioMediaLine t
      = ("#EXT-X-MEDIA:TYPE=AUDIO,GROUP-ID=\"audio\",NAME=\"".toList ++ t.label ++ "\",".toList)
        ++ (('L' :: "ANGUAGE=\"".toList) ++ (t.language ++ '"' ::
          (',' :: ((if t.isDefault then "DEFAULT=YES,".toList else []) ++
            ("URI=\"".toList ++ (validatedUri t ++ '"' :: ([] : Str))))))) := by
    simp [audioMediaLine, List.append_assoc]
  have hdecU : audioMediaLine t
      = ("#EXT-X-MEDIA:TYPE=AUDIO,GROUP-ID=\"audio\",NAME=\"".toList ++ t.label ++
          "\",LANGUAGE=\"".toList ++ t.language ++ "\",".toList ++
          (if t.isDefault then "DEFAULT=YES,".toList else []))
        ++ (('U' :: "RI=\"".toList) ++ (validatedUri t ++ '"' :: ([] : Str))) := by
    simp [audioMediaLine, List.append_assoc]
  obtain ⟨lg, hlg⟩ := matchCapture_exists
    ("#EXT-X-MEDIA:TYPE=AUDIO,GROUP-ID=\"audio\",NAME=\"".toList ++ t.label ++ "\",".toList)
    'L' "ANGUAGE=\"".toList t.language
    (',' :: ((if t.isDefault then "DEFAULT=YES,".toList else []) ++
      ("URI=\"".toList ++ (validatedUri t ++ '"' :: ([] : Str))))) hlang hlq
  obtain ⟨ur, hur⟩ := matchCapture_exists
    ("#EXT-X-MEDIA:TYPE=AUDIO,GROUP-ID=\"audio\",NAME=\"".toList ++ t.label ++
      "\",LANGUAGE=\"".toList ++ t.language ++ "\",".toList ++
      (if t.isDefault then "DEFAULT=YES,".toList else []))
    'U' "RI=\"".toList (validatedUri t) [] hune huq
  rw [← hdecL] at hlg
  rw [← hdecU] at hur
  refine ⟨lg ++ '_' :: ur, ?_⟩
  rw [keyOf]
  rw [show ("LANGUAGE=\"".toList : Str) = 'L' :: "ANGUAGE=\"".toList from rfl,
    show ("URI=\"".toList : Str) = 'U' :: "RI=\"".toList from rfl, hlg, hur]

theorem markAudioLine_idem (l : Str) : markAudioLine (markAudioLine l) = markAudioLine l := by
  by_cases h : isStreamInf l = true ∧ containsSub "AUDIO".toList l = false
  · have hl : markAudioLine l = l ++ ",AUDIO=\"audio\"".toList := by
      rw [markAudioLine, if_pos h]
    rw [hl, markAudioLine, if_neg]
    rintro ⟨_, hc⟩
    have hx : containsSub "AUDIO".toList (l ++ ",AUDIO=\"audio\"".toList) = true :=
      containsSub_of_infix (List.suffix_append l _).isInfix (by decide)
    rw [hx] at hc
    exact Bool.noConfusion hc
  · have hl : markAudioLine l = l := by rw [markAudioLine, if_neg h]
    rw [hl, hl]

theorem markSubsLine_idem (l : Str) : markSubsLine (markSubsLine l) = markSubsLine l := by
  by_cases h : isStreamInf l = true ∧ containsSub "SUBTITLES".toList l = false
  · have hl : markSubsLine l = l ++ ",SUBTITLES=\"subs\"".toList := by
      rw [markSubsLine, if_pos h]
    rw [hl, markSubsLine, if_neg]
    rintro ⟨_, hc⟩
    have hx : containsSub "SUBTITLES".toList (l ++ ",SUBTITLES=\"subs\"".toList) = true :=
      containsSub_of_infix (List.suffix_append l _).isInfix (by decide)
    rw [hx] at hc
    exact Bool.noConfusion hc
  · have hl : markSubsLine l = l := by rw [markSubsLine, if_neg h]
    rw [hl, hl]

theorem isVersionLine_of_stream {l : Str} (h : isStreamInf l = true) (x : Str) :
    isVersionLine (l ++ x) = false ∧ isVersionLine l = false := by
  rw [isStreamInf] at h
  rw [startsWith_decompose h, List.append_assoc]
  exact ⟨rfl, rfl⟩

theorem isVersionLine_markAudio (l : Str) :
    isVersionLine (markAudioLine l) = isVersionLine l := by
  by_cases h : isStreamInf l = true ∧ containsSub "AUDIO".toList l = false
  · have hl : markAudioLine l = l ++ ",AUDIO=\"audio\"".toList := by
      rw [markAudioLine, if_pos h]
    rw [hl, (isVersionLine_of_stream h.1 ",AUDIO=\"audio\"".toList).1,
      (isVersionLine_of_stream h.1 ",AUDIO=\"audio\"".toList).2]
  · rw [markAudioLine, if_neg h]

theorem no_nl_markAudio {l : Str} (h : '\n' ∉ l) : '\n' ∉ markAudioLine l := by
  rw [markAudioLine]
  split
  · intro hmem
    rcases List.mem_append.mp hmem with hm | hm
    · exact h hm
    · revert hm
      decide
  · exact h

theorem no_nl_audioMediaLine {t : AudioTrack} (h1 : '\n' ∉ t.label) (h2 : '\n' ∉ t.language)
    (h3 : '\n' ∉ validatedUri t) : '\n' ∉ audioMediaLine t := by
  rw [audioMediaLine]
  by_cases hd : t.isDefault = true
  · rw [if_pos hd]
    intro hmem
    simp only [List.mem_append] at hmem
    rcases hmem with ((((((((hm | hm) | hm) | hm) | hm) | hm) | hm) | hm) | hm) <;>
      first
        | exact h1 hm
        | exact h2 hm
        | exact h3 hm
        | exact absurd hm (by decide)
  · rw [if_neg hd]
    intro hmem
    simp only [List.mem_append] at hmem
    rcases hmem with ((((((((hm | hm) | hm) | hm) | hm) | hm) | hm) | hm) | hm) <;>
      first
        | exact h1 hm
        | exact h2 hm
        | exact h3 hm
        | exact absurd hm (by decide)

theorem splitAtVersion_inv : ∀ (L pre post : List Str) (v : Str),
    splitAtVersion L = some (pre, v, post) →
    L = pre ++ v :: post ∧ (∀ l ∈ pre, isVersionLine l = false) ∧ isVersionLine v = true := by
  intro L
  induction L with
  | nil =>
    intro pre post v h
    rw [splitAtVersion] at h
    exact absurd h (by simp)
  | cons a t ih =>
    intro pre post v h
    rw [splitAtVersion] at h
    by_cases ha : isVersionLine a = true
    · rw [if_pos ha] at h
      simp only [Option.some.injEq, Prod.mk.injEq] at h
      obtain ⟨h1, h2, h3⟩ := h
      subst h1
      subst h2
      subst h3
      exact ⟨rfl, by simp, ha⟩
    · rw [if_neg ha] at h
      cases hsub : splitAtVersion t with
      | none =>
        rw [hsub] at h
        exact absurd h (by simp)
      | some x =>
        obtain ⟨p, v', r⟩ := x
        rw [hsub] at h
        simp only [Option.some.injEq, Prod.mk.injEq] at h
        obtain ⟨h1, h2, h3⟩ := h
        subst h1
        subst h2
        subst h3
        obtain ⟨he, hpre, hv⟩ := ih p r v' hsub
        refine ⟨by rw [List.cons_append, ← he], ?_, hv⟩
        intro l hl
        rcases List.mem_cons.mp hl with rfl | hl2
        · simpa using ha
        · exact hpre l hl2

set_option maxRecDepth 10000 in
/-- **C3, counterexample.** For subtitle tracks the claimed idempotence
fails: attaching the same subtitle track twice produces the subtitle media
line twice, and the optimizer does not deduplicate subtitle declarations, so
`optimize(attach(attach(M,T),T)) ≠ optimize(attach(M,T))`. -/
theorem optimize_attach_subs_counterexample :
    optimizeMasterPlaylist
        (generateHlsWithSubtitles [c3Sub] (generateHlsWithSubtitles [c3Sub] c3Content))
      ≠ optimizeMasterPlaylist (generateHlsWithSubtitles [c3Sub] c3Content) := by
  decide

/-- **C3, amended.** For audio track sets with sane fields (nonempty
language; no quotes or newlines in the language, label, uri and id; a track
with an empty uri has a nonempty id) the property does hold for every master
text `M`: attaching twice and optimizing equals attaching once and
optimizing — every generated audio media line carries a dedup key, so the
optimizer drops the whole second copy of the block. -/
theorem optimize_attach_idempotent_amended (tracks : List AudioTrack) (M : Str)
    (hT : ∀ t ∈ tracks, t.language ≠ [] ∧ '"' ∉ t.language ∧ '\n' ∉ t.language ∧
      '\n' ∉ t.label ∧ '"' ∉ t.uri ∧ '\n' ∉ t.uri ∧ '"' ∉ t.id ∧ '\n' ∉ t.id ∧
      (t.uri = [] → t.id ≠ [])) :
    optimizeMasterPlaylist (generateHlsWithAudio tracks (generateHlsWithAudio tracks M))
      = optimizeMasterPlaylist (generateHlsWithAudio tracks M) := by
  cases hsv : splitAtVersion (splitLines M) with
  | none =>
    have h1 : generateHlsWithAudio tracks M = M := by
      rw [generateHlsWithAudio, hsv]
    rw [h1, h1]
  | some x =>
    obtain ⟨pre, v, post⟩ := x
    obtain ⟨hM, hpre, hv⟩ := splitAtVersion_inv _ _ _ _ hsv
    have hAfact : ∀ l ∈ tracks.map audioMediaLine,
        isAudioMedia l = true ∧ ∃ k, keyOf l = some k := by
      intro l hl
      rcases List.mem_map.mp hl with ⟨t, ht, rfl⟩
      obtain ⟨h1, h2, h3, h4, h5, h6, h7, h8, h9⟩ := hT t ht
      obtain ⟨hu1, hu2, hu3⟩ := validatedUri_spec t h5 h6 h7 h8 h9
      exact ⟨rfl, keyOf_audioMediaLine t h1 h2 hu1 hu2⟩
    have hAnl : ∀ l ∈ tracks.map audioMediaLine, '\n' ∉ l := by
      intro l hl
      rcases List.mem_map.mp hl with ⟨t, ht, rfl⟩
      obtain ⟨h1, h2, h3, h4, h5, h6, h7, h8, h9⟩ := hT t ht
      obtain ⟨hu1, hu2, hu3⟩ := validatedUri_spec t h5 h6 h7 h8 h9
      exact no_nl_audioMediaLine h4 h3 hu3
    have hAmark : (tracks.map audioMediaLine).map markAudioLine
        = tracks.map audioMediaLine := by
      rw [List.map_map]
      simp only [Function.comp_def]
      rw [List.map_congr_left
        (fun t _ => markAudioLine_of_not_streamInf (isStreamInf_audioMediaLine t))]
    have hlines1 : attachAudioLines tracks (splitLines M)
        = pre.map markAudioLine ++
            v :: (tracks.map audioMediaLine ++ post.map markAudioLine) := by
      rw [hM, attachAudioLines_decomp tracks pre post v hpre hv]
    have htext1 : generateHlsWithAudio tracks M
        = joinLines (pre.map markAudioLine ++
            v :: (tracks.map audioMediaLine ++ post.map markAudioLine)) := by
      rw [generateHlsWithAudio, hsv]
      dsimp only
      rw [hlines1]
    have hnl1 : ∀ l ∈ pre.map markAudioLine ++
        v :: (tracks.map audioMediaLine ++ post.map markAudioLine), '\n' ∉ l := by
      intro l hl
      rcases List.mem_append.mp hl with hm | hm
      · rcases List.mem_map.mp hm with ⟨l0, hl0, rfl⟩
        exact no_nl_markAudio
          (no_nl_of_mem_splitLines M l0 (by rw [hM]; exact List.mem_append_left _ hl0))
      · rcases List.mem_cons.mp hm with rfl | hm2
        · exact no_nl_of_mem_splitLines M l (by rw [hM]; simp)
        · rcases List.mem_append.mp hm2 with hm3 | hm3
          · exact hAnl l hm3
          · rcases List.mem_map.mp hm3 with ⟨l0, hl0, rfl⟩
            exact no_nl_markAudio
              (no_nl_of_mem_splitLines M l0 (by rw [hM]; simp [hl0]))
    have hsplit1 : splitLines (generateHlsWithAudio tracks M)
        = pre.map markAudioLine ++
            v :: (tracks.map audioMediaLine ++ post.map markAudioLine) := by
      rw [htext1, splitLines_joinLines _ (by simp) hnl1]
    have hpre1 : ∀ l ∈ pre.map markAudioLine, isVersionLine l = false := by
      intro l hl
      rcases List.mem_map.mp hl with ⟨l0, hl0, rfl⟩
      rw [isVersionLine_markAudio]
      exact hpre l0 hl0
    have hsv1 : splitAtVersion (pre.map markAudioLine ++
          v :: (tracks.map audioMediaLine ++ post.map markAudioLine))
        = some (pre.map markAudioLine, v,
            tracks.map audioMediaLine ++ post.map markAudioLine) :=
      splitAtVersion_append _ _ _ hpre1 hv
    have hPmark : (pre.map markAudioLine).map markAudioLine = pre.map markAudioLine := by
      rw [List.map_map]
      simp only [Function.comp_def]
      rw [List.map_congr_left (fun l _ => markAudioLine_idem l)]
    have hQmark : (post.map markAudioLine).map markAudioLine = post.map markAudioLine := by
      rw [List.map_map]
      simp only [Function.comp_def]
      rw [List.map_congr_left (fun l _ => markAudioLine_idem l)]
    have hlines2 : attachAudioLines tracks
        (pre.map markAudioLine ++
          v :: (tracks.map audioMediaLine ++ post.map markAudioLine))
        = pre.map markAudioLine ++ v :: (tracks.map audioMediaLine ++
            (tracks.map audioMediaLine ++ post.map markAudioLine)) := by
      rw [attachAudioLines_decomp tracks _ _ v hpre1 hv]
      rw [List.map_append, hAmark, hQmark, hPmark]
    have htext2 : generateHlsWithAudio tracks (generateHlsWithAudio tracks M)
        = joinLines (pre.map markAudioLine ++ v :: (tracks.map audioMediaLine ++
            (tracks.map audioMediaLine ++ post.map markAudioLine))) := by
      rw [generateHlsWithAudio, hsplit1, hsv1]
      dsimp only
      rw [hlines2]
    have hnl2 : ∀ l ∈ pre.map markAudioLine ++ v :: (tracks.map audioMediaLine ++
        (tracks.map audioMediaLine ++ post.map markAudioLine)), '\n' ∉ l := by
      intro l hl
      refine hnl1 l ?_
      rcases List.mem_append.mp hl with hm | hm
      · exact List.mem_append_left _ hm
      · rcases List.mem_cons.mp hm with rfl | hm2
        · exact List.mem_append_right _ (List.mem_cons_self _ _)
        · rcases List.mem_append.mp hm2 with hm3 | hm3
          · exact List.mem_append_right _
              (List.mem_cons_of_mem _ (List.mem_append_left _ hm3))
          · rcases List.mem_append.mp hm3 with hm4 | hm4
            · exact List.mem_append_right _
                (List.mem_cons_of_mem _ (List.mem_append_left _ hm4))
            · exact List.mem_append_right _
                (List.mem_cons_of_mem _ (List.mem_append_right _ hm4))
    have hsplit2 : splitLines (generateHlsWithAudio tracks (generateHlsWithAudio tracks M))
        = pre.map markAudioLine ++ v :: (tracks.map audioMediaLine ++
            (tracks.map audioMediaLine ++ post.map markAudioLine)) := by
      rw [htext2, splitLines_joinLines _ (by simp) hnl2]
    have hopt : optLoop [] [] (pre.map markAudioLine ++ v :: (tracks.map audioMediaLine ++
          (tracks.map audioMediaLine ++ post.map markAudioLine)))
        = optLoop [] [] (pre.map markAudioLine ++
            v :: (tracks.map audioMediaLine ++ post.map markAudioLine)) := by
      cases tracks with
      | nil => simp
      | cons t0 ts =>
        have hsplice : ∀ Z : List Str, pre.map markAudioLine ++ v :: Z
            = (pre.map markAudioLine ++ [v]) ++ Z := by
          intro Z
          rw [List.append_assoc]
          rfl
        rw [hsplice ((t0 :: ts).map audioMediaLine ++
            ((t0 :: ts).map audioMediaLine ++ post.map markAudioLine)),
          hsplice ((t0 :: ts).map audioMediaLine ++ post.map markAudioLine)]
        refine optLoop_graft
          ((t0 :: ts).map audioMediaLine ++
            ((t0 :: ts).map audioMediaLine ++ post.map markAudioLine))
          ((t0 :: ts).map audioMediaLine ++ post.map markAudioLine)
          rfl ?_ ?_ _ _ [] [] le_rfl
        · intro h hh
          rw [show (((t0 :: ts).map audioMediaLine ++ ((t0 :: ts).map audioMediaLine
              ++ post.map markAudioLine)).head? : Option Str)
              = some (audioMediaLine t0) from rfl] at hh
          injection hh with hh2
          rw [← hh2]
          rfl
        · intro sa ss
          exact optLoop_dup_block _ hAfact sa ss (post.map markAudioLine)
    rw [optimizeMasterPlaylist, optimizeMasterPlaylist, hsplit2, hsplit1,
      optimizeLines, optimizeLines, hopt]

set_option maxRecDepth 10000 in
/-- Witness for `optimize_attach_idempotent_amended` on a concrete manifest
and track. -/
theorem optimize_attach_idempotent_amended_witness :
    optimizeMasterPlaylist (generateHlsWithAudio [c8Track]
        (generateHlsWithAudio [c8Track] (joinLines [c8V, c8S, c5Uri])))
      = optimizeMasterPlaylist (generateHlsWithAudio [c8Track] (joinLines [c8V, c8S, c5Uri])) :=
  optimize_attach_idempotent_amended [c8Track] (joinLines [c8V, c8S, c5Uri]) (by decide)

/-- Witness for `attach_media_amended` on a concrete four-line manifest. -/
theorem attach_media_amended_witness :
    attachAudioLines [c8Track] ([c8Pre] ++ c8V :: [c8S, c5Uri])
      = [c8Pre].map markAudioLine ++
          c8V :: ([c8Track].map audioMediaLine ++ [c8S, c5Uri].map markAudioLine) :=
  (attach_media_amended [c8Track] [c3Sub] [c8Pre] [c8S, c5Uri] c8V
    (by decide) (by decide)).1

end M3u8
